import Mathlib

/-!
# ProiectSO.c: the treasure-hunt store

A shallow embedding of `src/ProiectSO.c` and the properties of its operations.

Conventions of the model.

* A byte is a natural number and a file is the list of its bytes (`Bytes`).
  A C string is the list of its bytes without the terminating NUL.
* A `Treasure` object is its object representation: the `sizeofTreasure`
  bytes that `read` fills and `write` stores.  The field offsets are those of
  the x86-64 System V layout of the struct (4-byte little-endian `int`, 8-byte
  `double` aligned to 8).  A `double` is kept as its 8 bytes; no floating-point
  arithmetic is performed by the program.
* `int` arithmetic is two's-complement arithmetic on 32 bits (`wrapInt`).
* The file system is seen from one hunt: the path `<hunt_id>`, the three files
  the program names inside it, whether anything else lives in the directory,
  and the path `logged_hunt-<hunt_id>` of the working directory (`HuntFS`).
  System calls are those of an ideal file system: a call fails only for the
  reason the state of the hunt gives (`ENOENT` for an absent file or
  directory, `EEXIST` for an occupied path, `ENOTEMPTY` for a directory with
  entries, `ENOTDIR`), and a `write` stores all its bytes.  Paths are taken to
  fit `MAX_PATH_LEN`.
* What the process reads from its environment is an argument of the
  operation: the text `strftime` produces for the current time (`ts`) and what
  `fgets` and `scanf` store from standard input (`Input`).
* What the process prints is a list of events (`Out`), one per `printf` or
  `fprintf` of the source, carrying the arguments of the format.
* A loop `while (read(fd, &treasure, sizeof(Treasure)) == sizeof(Treasure))`
  is a recursion on a number of rounds left, started with the length of the
  file; each round takes `sizeofTreasure` bytes, so that number is never used
  up before `read` comes up short (`get_next_id_loop_eq`, `view_loop_eq`,
  `remove_loop_eq`, `list_loop_eq`).
* An operation is one process. A run of `add_treasure` or `remove_treasure`
  is successful when it prints its confirmation (`Run.added`, `Run.removed`).
-/

namespace ProiectSO

/-! ## Bytes, strings and `int` -/

abbrev Bytes := List Nat

/-- The bytes of a string literal of the source. -/
def str (s : String) : Bytes := s.toList.map Char.toNat

/-- The value of an `int` expression: the two's-complement reading on 32 bits. -/
def wrapInt (z : Int) : Int := (z + 2147483648) % 4294967296 - 2147483648

/-- The four bytes of an `int` in memory (little endian). -/
def encodeInt (z : Int) : Bytes :=
  let u := (z % 4294967296).toNat
  [u % 256, u / 256 % 256, u / 65536 % 256, u / 16777216 % 256]

/-- The `int` that four bytes of memory hold. -/
def decodeInt (b : Bytes) : Int :=
  wrapInt (Int.ofNat (b.getD 0 0 % 256 + 256 * (b.getD 1 0 % 256)
    + 65536 * (b.getD 2 0 % 256) + 16777216 * (b.getD 3 0 % 256)))

/-- The bytes `len` bytes long at offset `off` of an object. -/
def slice (b : Bytes) (off len : Nat) : Bytes := (b.drop off).take len

/-- Storing the bytes `v` at offset `off` of an object. -/
def store (b : Bytes) (off : Nat) (v : Bytes) : Bytes :=
  b.take off ++ v ++ b.drop (off + v.length)

/-- The C string a buffer holds: its bytes before the first NUL. -/
def cstr (buf : Bytes) : Bytes := buf.takeWhile (fun c => decide (c ≠ 0))

/-- The call `strcspn(buf, "\n")`: the length of the part of the C string in
`buf` before its first newline. -/
def strcspn_nl (buf : Bytes) : Nat :=
  (buf.takeWhile (fun c => decide (c ≠ 0) && decide (c ≠ 10))).length

/-- What `snprintf` leaves in a buffer of `size` bytes as a C string: the
formatted text cut to `size - 1` bytes. -/
def snprintf (size : Nat) (text : Bytes) : Bytes := text.take (size - 1)

/-- The digits of `n` in base ten, most significant first (`fuel` bounds the
number of digits). -/
def fmtDigits : Nat → Nat → Bytes → Bytes
  | 0, _, acc => acc
  | fuel + 1, n, acc =>
    if n < 10 then (48 + n) :: acc else fmtDigits fuel (n / 10) ((48 + n % 10) :: acc)

/-- The conversion `%d` of `printf`. -/
def fmtInt (z : Int) : Bytes :=
  if z < 0 then 45 :: fmtDigits 20 z.natAbs [] else fmtDigits 20 z.natAbs []

/-- The predicate `isspace` of the C locale. -/
def isspace (c : Nat) : Bool := c == 32 || (9 ≤ c && c ≤ 13)

/-- The digits loop of `atoi`: the value read so far and the rest of the text. -/
def atoiDigits : Bytes → Int → Int
  | [], acc => acc
  | c :: rest, acc =>
    if 48 ≤ c ∧ c ≤ 57 then atoiDigits rest (wrapInt (acc * 10 + (Int.ofNat c - 48))) else acc

/-- The library function `atoi`: leading white space, an optional sign, then
decimal digits. -/
def atoi (s : Bytes) : Int :=
  match s.dropWhile isspace with
  | 45 :: rest => wrapInt (- atoiDigits rest 0)
  | 43 :: rest => atoiDigits rest 0
  | rest => atoiDigits rest 0

/-! ## The record -/

def MAX_USERNAME_LEN : Nat := 50

def MAX_CLUE_LEN : Nat := 256

/-- The value of `sizeof(Treasure)`. -/
def sizeofTreasure : Nat := 336

def OFF_id : Nat := 0

def OFF_username : Nat := 4

def OFF_latitude : Nat := 56

def OFF_longitude : Nat := 64

def OFF_clue : Nat := 72

def OFF_value : Nat := 328

/-- A `Treasure` object, as its `sizeofTreasure` bytes. -/
abbrev Treasure := Bytes

/-- The field `id`. -/
def Treasure.id (t : Treasure) : Int := decodeInt (slice t OFF_id 4)

/-- The field `username`, read as a C string (to the end of the array when it
holds no NUL). -/
def Treasure.username (t : Treasure) : Bytes := cstr (slice t OFF_username MAX_USERNAME_LEN)

/-- The field `latitude`. -/
def Treasure.latitude (t : Treasure) : Bytes := slice t OFF_latitude 8

/-- The field `longitude`. -/
def Treasure.longitude (t : Treasure) : Bytes := slice t OFF_longitude 8

/-- The field `clue`, read as a C string (to the end of the array when it holds
no NUL). -/
def Treasure.clue (t : Treasure) : Bytes := cstr (slice t OFF_clue MAX_CLUE_LEN)

/-- The field `value`. -/
def Treasure.value (t : Treasure) : Int := decodeInt (slice t OFF_value 4)

/-! ## The file system of one hunt -/

/-- What a path names. -/
inductive Node where
  | absent
  | other
  | dir
  deriving DecidableEq, Repr

/-- The error numbers the model produces. -/
inductive Errno where
  | ENOENT
  | EEXIST
  | ENOTEMPTY
  | ENOTDIR
  deriving DecidableEq, Repr

/-- The three files the program names inside the hunt directory:
`treasures.dat`, `logged_hunt` and `temp_treasures.dat`. -/
inductive File where
  | dat
  | log
  | temp
  deriving DecidableEq, Repr

/-- The file system as one hunt sees it. -/
structure HuntFS where
  /-- What the path `<hunt_id>` names. -/
  node : Node
  /-- The contents of `<hunt_id>/treasures.dat`, when the file exists. -/
  dat : Option Bytes
  /-- The contents of `<hunt_id>/logged_hunt`, when the file exists. -/
  log : Option Bytes
  /-- The contents of `<hunt_id>/temp_treasures.dat`, when the file exists. -/
  temp : Option Bytes
  /-- Whether the directory has an entry other than these three files. -/
  extra : Bool
  /-- The target of `logged_hunt-<hunt_id>`, when that path exists. -/
  link : Option Bytes
  deriving DecidableEq, Repr

/-- The file `f` of the record, whatever `node` is. -/
def HuntFS.raw (s : HuntFS) : File → Option Bytes
  | .dat => s.dat
  | .log => s.log
  | .temp => s.temp

/-- The contents of `f`, when the directory and the file exist. -/
def HuntFS.file (s : HuntFS) (f : File) : Option Bytes :=
  if s.node = .dir then s.raw f else none

/-- The state with `f` replaced. -/
def HuntFS.put (s : HuntFS) (f : File) (v : Option Bytes) : HuntFS :=
  match f with
  | .dat => { s with dat := v }
  | .log => { s with log := v }
  | .temp => { s with temp := v }

/-- A hunt that does not exist and has left nothing behind. -/
def HuntFS.fresh : HuntFS := ⟨.absent, none, none, none, false, none⟩

/-- The error a path inside the directory gives when the directory is missing. -/
def HuntFS.dirErrno (s : HuntFS) : Errno :=
  if s.node = .other then .ENOTDIR else .ENOENT

/-- The call `stat(path, &st) == 0 && S_ISDIR(st.st_mode)` on `<hunt_id>`. -/
def sys_stat_isdir (s : HuntFS) : Bool := decide (s.node = .dir)

/-- The call `stat` on a file of the directory: its size. -/
def sys_stat (s : HuntFS) (f : File) : Except Errno Nat :=
  if s.node = .dir then
    match s.raw f with
    | some b => .ok b.length
    | none => .error .ENOENT
  else .error s.dirErrno

/-- The call `mkdir(hunt_id, 0755)`. -/
def sys_mkdir (s : HuntFS) : Except Errno HuntFS :=
  if s.node = .absent then .ok ⟨.dir, none, none, none, false, s.link⟩ else .error .EEXIST

/-- The call `open(path, O_RDONLY)`: the bytes the descriptor reads. -/
def sys_open_rdonly (s : HuntFS) (f : File) : Except Errno Bytes :=
  if s.node = .dir then
    match s.raw f with
    | some b => .ok b
    | none => .error .ENOENT
  else .error s.dirErrno

/-- The call `open(path, O_WRONLY | O_CREAT, 0644)`, with `O_TRUNC` when
`trunc`: the file exists afterwards. -/
def sys_open_creat (s : HuntFS) (f : File) (trunc : Bool) : Except Errno HuntFS :=
  if s.node = .dir then
    .ok (s.put f (some (if trunc then [] else (s.raw f).getD [])))
  else .error s.dirErrno

/-- The call `write(fd, data, n)` on a descriptor that writes at the end of
the file (opened with `O_APPEND`, or written in sequence from a truncated
file): the number of bytes written and the new state. -/
def sys_write (s : HuntFS) (f : File) (data : Bytes) : Nat × HuntFS :=
  (data.length, s.put f (some ((s.raw f).getD [] ++ data)))

/-- The call `unlink` on a file of the directory. -/
def sys_unlink (s : HuntFS) (f : File) : Except Errno HuntFS :=
  if s.node = .dir then
    match s.raw f with
    | some _ => .ok (s.put f none)
    | none => .error .ENOENT
  else .error s.dirErrno

/-- The call `unlink` on `logged_hunt-<hunt_id>`. -/
def sys_unlink_link (s : HuntFS) : Except Errno HuntFS :=
  match s.link with
  | some _ => .ok { s with link := none }
  | none => .error .ENOENT

/-- The call `symlink(target, "logged_hunt-<hunt_id>")`. -/
def sys_symlink (s : HuntFS) (target : Bytes) : Except Errno HuntFS :=
  match s.link with
  | some _ => .error .EEXIST
  | none => .ok { s with link := some target }

/-- The call `rename(temp_path, file_path)`. -/
def sys_rename_temp (s : HuntFS) : Except Errno HuntFS :=
  if s.node = .dir then
    match s.temp with
    | some b => .ok { s with dat := some b, temp := none }
    | none => .error .ENOENT
  else .error s.dirErrno

/-- The call `rmdir(hunt_id)`. -/
def sys_rmdir (s : HuntFS) : Except Errno HuntFS :=
  match s.node with
  | .absent => .error .ENOENT
  | .other => .error .ENOTDIR
  | .dir =>
    if s.dat = none ∧ s.log = none ∧ s.temp = none ∧ s.extra = false then
      .ok ⟨.absent, none, none, none, false, s.link⟩
    else .error .ENOTEMPTY

/-! ## What the process prints -/

/-- One event per `printf` or `fprintf` of the source, with the arguments of
its format.  The lines that show one record in `view_treasure` are one event. -/
inductive Out where
  | usage (prog : Bytes)
  | operations
  | badFlag
  | missingIdView
  | missingIdRemove
  | unknownOperation (operation : Bytes)
  | mkdirFailed (e : Errno)
  | createdHunt (hunt_id : Bytes)
  | logCreateFailed (e : Errno)
  | symlinkFailed (e : Errno)
  | logOpenFailed (e : Errno)
  | openFailed (e : Errno)
  | promptUsername
  | promptLatitude
  | promptLongitude
  | promptClue
  | promptValue
  | writeFailed
  | added (id : Int) (hunt_id : Bytes)
  | huntMissing (hunt_id : Bytes)
  | statFailed (e : Errno)
  | huntHeader (hunt_id : Bytes)
  | fileSize (size : Nat)
  | lastModified
  | noTreasuresInHunt (hunt_id : Bytes)
  | listHeader
  | listLine (id : Int) (username : Bytes) (value : Int)
  | noTreasures
  | total (count : Int)
  | details (id : Int) (username latitude longitude clue : Bytes) (value : Int)
  | notFound (treasure_id : Int) (hunt_id : Bytes)
  | tempCreateFailed (e : Errno)
  | tempWriteFailed
  | replaceFailed (e : Errno)
  | removed (treasure_id : Int) (hunt_id : Bytes)
  | rmDatFailed (e : Errno)
  | rmLogFailed (e : Errno)
  | rmLinkFailed (e : Errno)
  | rmdirFailed (e : Errno)
  | huntRemoved (hunt_id : Bytes)
  deriving DecidableEq, Repr

/-- The run of an operation: the file system it leaves, what it printed, and
the status it passed to `exit`, when it called `exit`. -/
structure Run where
  fs : HuntFS
  out : List Out
  exit : Option Nat
  deriving DecidableEq, Repr

/-! ## The operations -/

/-- The function `hunt_exists`. -/
def hunt_exists (s : HuntFS) : Bool := sys_stat_isdir s

/-- The function `create_symlink`. -/
def create_symlink (hunt_id : Bytes) (s : HuntFS) : HuntFS × List Out :=
  let log_path := hunt_id ++ str "/" ++ str "logged_hunt"
  let s1 := match sys_unlink_link s with
    | .ok s1 => s1
    | .error _ => s
  match sys_symlink s1 log_path with
  | .ok s2 => (s2, [])
  | .error e => (s1, [.symlinkFailed e])

/-- The function `ensure_hunt_dir`. -/
def ensure_hunt_dir (hunt_id : Bytes) (s : HuntFS) : Run :=
  if !hunt_exists s then
    match sys_mkdir s with
    | .error e => ⟨s, [.mkdirFailed e], some 1⟩
    | .ok s1 =>
      match sys_open_creat s1 .log false with
      | .error e => ⟨s1, [.createdHunt hunt_id, .logCreateFailed e], some 1⟩
      | .ok s2 =>
        let r := create_symlink hunt_id s2
        ⟨r.1, .createdHunt hunt_id :: r.2, none⟩
  else ⟨s, [], none⟩

/-- The C string `log_operation` formats in its buffer `log_entry`; `ts` is
the text `strftime` produces for the time of the call. -/
def log_entry (ts operation : Bytes) : Bytes :=
  snprintf 512 (str "[" ++ ts ++ str "] " ++ operation ++ str "\n")

/-- The function `log_operation`. -/
def log_operation (ts operation : Bytes) (s : HuntFS) : HuntFS × List Out :=
  match sys_open_creat s .log false with
  | .error e => (s, [.logOpenFailed e])
  | .ok s1 => ((sys_write s1 .log (log_entry ts operation)).2, [])

/-- The loop of `get_next_id`: `rest` is what the descriptor has yet to read. -/
def get_next_id_loop : Nat → Bytes → Int → Int
  | 0, _, count => count
  | fuel + 1, rest, count =>
    if (rest.take sizeofTreasure).length = sizeofTreasure then
      get_next_id_loop fuel (rest.drop sizeofTreasure) (wrapInt (count + 1))
    else count

/-- The function `get_next_id`. -/
def get_next_id (s : HuntFS) : Int :=
  match sys_open_rdonly s .dat with
  | .error _ => 1
  | .ok file => wrapInt (get_next_id_loop file.length file 0 + 1)

/-- What `add_treasure` takes from its environment: the bytes `fgets` stores
for the user name and the clue (the terminating NUL left out), the bytes
`scanf` stores for the two coordinates, the `int` it stores for the value, and
the bytes the automatic object `treasure` holds before any field is
assigned.  The `getchar()` between the reads stores nothing. -/
structure Input where
  username : Bytes
  latitude : Bytes
  longitude : Bytes
  clue : Bytes
  value : Int
  stack : Bytes
  deriving DecidableEq, Repr

/-- The object `treasure` of `add_treasure` when it is written. -/
def build_treasure (id : Int) (inp : Input) : Treasure :=
  let t := store inp.stack OFF_id (encodeInt id)
  let t := store t OFF_username (inp.username ++ [0])
  let t := store t (OFF_username + strcspn_nl (slice t OFF_username MAX_USERNAME_LEN)) [0]
  let t := store t OFF_latitude inp.latitude
  let t := store t OFF_longitude inp.longitude
  let t := store t OFF_clue (inp.clue ++ [0])
  let t := store t (OFF_clue + strcspn_nl (slice t OFF_clue MAX_CLUE_LEN)) [0]
  store t OFF_value (encodeInt inp.value)

/-- The function `add_treasure`. -/
def add_treasure (ts hunt_id : Bytes) (inp : Input) (s : HuntFS) : Run :=
  let r := ensure_hunt_dir hunt_id s
  match r.exit with
  | some code => ⟨r.fs, r.out, some code⟩
  | none =>
    match sys_open_creat r.fs .dat false with
    | .error e => ⟨r.fs, r.out ++ [.openFailed e], none⟩
    | .ok s1 =>
      let treasure := build_treasure (get_next_id s1) inp
      let prompts := [Out.promptUsername, .promptLatitude, .promptLongitude, .promptClue,
        .promptValue]
      let w := sys_write s1 .dat (treasure.take sizeofTreasure)
      if w.1 ≠ sizeofTreasure then ⟨w.2, r.out ++ prompts ++ [.writeFailed], none⟩
      else
        let log_msg := snprintf 256 (str "Added treasure " ++ fmtInt (Treasure.id treasure)
          ++ str " by " ++ Treasure.username treasure)
        let l := log_operation ts log_msg w.2
        ⟨l.1, r.out ++ prompts ++ l.2 ++ [.added (Treasure.id treasure) hunt_id], none⟩

/-- The loop of `list_treasures`: the lines printed and the count. -/
def list_loop : Nat → Bytes → Int → List Out × Int
  | 0, _, count => ([], count)
  | fuel + 1, rest, count =>
    let treasure := rest.take sizeofTreasure
    if treasure.length = sizeofTreasure then
      let r := list_loop fuel (rest.drop sizeofTreasure) (wrapInt (count + 1))
      (.listLine (Treasure.id treasure) (Treasure.username treasure) (Treasure.value treasure)
        :: r.1, r.2)
    else ([], count)

/-- The function `list_treasures`. -/
def list_treasures (ts hunt_id : Bytes) (s : HuntFS) : Run :=
  if !hunt_exists s then ⟨s, [.huntMissing hunt_id], none⟩
  else
    match sys_stat s .dat with
    | .error e => ⟨s, [.statFailed e], none⟩
    | .ok size =>
      let head := [Out.huntHeader hunt_id, .fileSize size, .lastModified]
      match sys_open_rdonly s .dat with
      | .error e =>
        if e = .ENOENT then ⟨s, head ++ [.noTreasuresInHunt hunt_id], none⟩
        else ⟨s, head ++ [.openFailed e], none⟩
      | .ok file =>
        let r := list_loop file.length file 0
        let tail := if r.2 = 0 then [Out.noTreasures] else [.total r.2]
        let l := log_operation ts (str "Listed all treasures") s
        ⟨l.1, head ++ [.listHeader] ++ r.1 ++ tail ++ l.2, none⟩

/-- The loop of `view_treasure`: the object `treasure` when the loop is left
by `break`, nothing when `read` came up short. -/
def view_loop : Nat → Bytes → Int → Option Treasure
  | 0, _, _ => none
  | fuel + 1, rest, treasure_id =>
    let treasure := rest.take sizeofTreasure
    if treasure.length = sizeofTreasure then
      if Treasure.id treasure = treasure_id then some treasure
      else view_loop fuel (rest.drop sizeofTreasure) treasure_id
    else none

/-- The event `view_treasure` prints for the record it found. -/
def show_treasure (t : Treasure) : Out :=
  .details (Treasure.id t) (Treasure.username t) (Treasure.latitude t) (Treasure.longitude t)
    (Treasure.clue t) (Treasure.value t)

/-- The function `view_treasure`. -/
def view_treasure (ts hunt_id : Bytes) (treasure_id : Int) (s : HuntFS) : Run :=
  if !hunt_exists s then ⟨s, [.huntMissing hunt_id], none⟩
  else
    match sys_open_rdonly s .dat with
    | .error e => ⟨s, [.openFailed e], none⟩
    | .ok file =>
      match view_loop file.length file treasure_id with
      | some treasure =>
        let log_msg := snprintf 256 (str "Viewed treasure " ++ fmtInt treasure_id)
        let l := log_operation ts log_msg s
        ⟨l.1, show_treasure treasure :: l.2, none⟩
      | none => ⟨s, [.notFound treasure_id hunt_id], none⟩

/-- The loop of `remove_treasure`: `found`, and the state once the records
kept are written to the temporary file; nothing when a `write` came up
short. -/
def remove_loop : Nat → Bytes → Int → Bool → HuntFS → Option (Bool × HuntFS)
  | 0, _, _, found, s => some (found, s)
  | fuel + 1, rest, treasure_id, found, s =>
    let treasure := rest.take sizeofTreasure
    if treasure.length = sizeofTreasure then
      if Treasure.id treasure = treasure_id then
        remove_loop fuel (rest.drop sizeofTreasure) treasure_id true s
      else
        let w := sys_write s .temp treasure
        if w.1 ≠ sizeofTreasure then none
        else remove_loop fuel (rest.drop sizeofTreasure) treasure_id found w.2
    else some (found, s)

/-- The state after `unlink(temp_path)`, whose result the source ignores. -/
def unlink_temp (s : HuntFS) : HuntFS :=
  match sys_unlink s .temp with
  | .ok s1 => s1
  | .error _ => s

/-- The function `remove_treasure`. -/
def remove_treasure (ts hunt_id : Bytes) (treasure_id : Int) (s : HuntFS) : Run :=
  if !hunt_exists s then ⟨s, [.huntMissing hunt_id], none⟩
  else
    match sys_open_rdonly s .dat with
    | .error e => ⟨s, [.openFailed e], none⟩
    | .ok file =>
      match sys_open_creat s .temp true with
      | .error e => ⟨s, [.tempCreateFailed e], none⟩
      | .ok s1 =>
        match remove_loop file.length file treasure_id false s1 with
        | none => ⟨unlink_temp s1, [.tempWriteFailed], none⟩
        | some (found, s2) =>
          if !found then ⟨unlink_temp s2, [.notFound treasure_id hunt_id], none⟩
          else
            match sys_rename_temp s2 with
            | .error e => ⟨unlink_temp s2, [.replaceFailed e], none⟩
            | .ok s3 =>
              let log_msg := snprintf 256 (str "Removed treasure " ++ fmtInt treasure_id)
              let l := log_operation ts log_msg s3
              ⟨l.1, l.2 ++ [.removed treasure_id hunt_id], none⟩

/-- The function `remove_hunt`. -/
def remove_hunt (hunt_id : Bytes) (s : HuntFS) : Run :=
  if !hunt_exists s then ⟨s, [.huntMissing hunt_id], none⟩
  else
    let r1 : HuntFS × List Out := match sys_unlink s .dat with
      | .ok s1 => (s1, [])
      | .error e => (s, if e ≠ .ENOENT then [.rmDatFailed e] else [])
    let r2 : HuntFS × List Out := match sys_unlink r1.1 .log with
      | .ok s2 => (s2, [])
      | .error e => (r1.1, if e ≠ .ENOENT then [.rmLogFailed e] else [])
    let r3 : HuntFS × List Out := match sys_unlink_link r2.1 with
      | .ok s3 => (s3, [])
      | .error e => (r2.1, if e ≠ .ENOENT then [.rmLinkFailed e] else [])
    match sys_rmdir r3.1 with
    | .error e => ⟨r3.1, r1.2 ++ r2.2 ++ r3.2 ++ [.rmdirFailed e], none⟩
    | .ok s4 => ⟨s4, r1.2 ++ r2.2 ++ r3.2 ++ [.huntRemoved hunt_id], none⟩

/-- The exit status of the process once an operation called from `main` is
over: that of `exit` when the operation called it, `EXIT_SUCCESS` when it
returned. -/
def finish (r : Run) : Run :=
  match r.exit with
  | some code => ⟨r.fs, r.out, some code⟩
  | none => ⟨r.fs, r.out, some 0⟩

/-- The function `main`: `argv` is the argument vector (`argc` its length);
the `exit` of the result is the exit status of the process. -/
def main (ts : Bytes) (inp : Input) (argv : List Bytes) (s : HuntFS) : Run :=
  match argv with
  | [] => ⟨s, [.usage [], .operations], some 1⟩
  | [prog] => ⟨s, [.usage prog, .operations], some 1⟩
  | [prog, _] => ⟨s, [.usage prog, .operations], some 1⟩
  | _ :: operation :: hunt_id :: more =>
    if operation.getD 0 0 ≠ 45 ∨ operation.getD 1 0 ≠ 45 then ⟨s, [.badFlag], some 1⟩
    else
      let operation := operation.drop 2
      if operation = str "add" then finish (add_treasure ts hunt_id inp s)
      else if operation = str "list" then finish (list_treasures ts hunt_id s)
      else if operation = str "view" then
        match more with
        | [] => ⟨s, [.missingIdView], some 1⟩
        | id :: _ => finish (view_treasure ts hunt_id (atoi id) s)
      else if operation = str "remove_treasure" then
        match more with
        | [] => ⟨s, [.missingIdRemove], some 1⟩
        | id :: _ => finish (remove_treasure ts hunt_id (atoi id) s)
      else if operation = str "remove_hunt" then finish (remove_hunt hunt_id s)
      else ⟨s, [.unknownOperation operation], some 1⟩

/-! ## The records of a file -/

/-- The records a loop `while (read(fd, &treasure, sizeof(Treasure)) == sizeof(Treasure))`
reads from a descriptor that has `rest` left, in at most `fuel` rounds. -/
def recordsAux : Nat → Bytes → List Treasure
  | 0, _ => []
  | fuel + 1, rest =>
    if (rest.take sizeofTreasure).length = sizeofTreasure then
      rest.take sizeofTreasure :: recordsAux fuel (rest.drop sizeofTreasure)
    else []

/-- The complete records of a file, in the order of the file. -/
def records (file : Bytes) : List Treasure := recordsAux file.length file

/-- The ids of the complete records of a file. -/
def ids (file : Bytes) : List Int := (records file).map Treasure.id

/-- The records file as a list of bytes, an absent file being empty. -/
def HuntFS.datBytes (s : HuntFS) : Bytes := (s.file .dat).getD []

/-- The audit log as a list of bytes, an absent log being empty. -/
def HuntFS.logBytes (s : HuntFS) : Bytes := (s.file .log).getD []

/-- The C string a line stored by `fgets` holds once its newline is cut. -/
def entered (line : Bytes) : Bytes :=
  line.takeWhile (fun c => decide (c ≠ 0) && decide (c ≠ 10))

/-- What the C types give for an `Input`: the object has `sizeofTreasure`
bytes, `fgets` stores fewer bytes than the array has, a `double` has 8
bytes and the value is an `int`. -/
def Input.WF (inp : Input) : Prop :=
  inp.stack.length = sizeofTreasure ∧ inp.username.length < MAX_USERNAME_LEN ∧
    inp.clue.length < MAX_CLUE_LEN ∧ inp.latitude.length = 8 ∧ inp.longitude.length = 8 ∧
    -2147483648 ≤ inp.value ∧ inp.value < 2147483648

instance (inp : Input) : Decidable inp.WF := by
  unfold Input.WF; infer_instance

/-! ## Sequences of operations -/

/-- Whether an event is the confirmation `add_treasure` prints last. -/
def Out.isAdded : Out → Bool
  | .added _ _ => true
  | _ => false

/-- Whether an event is the confirmation `remove_treasure` prints last. -/
def Out.isRemoved : Out → Bool
  | .removed _ _ => true
  | _ => false

/-- Whether a run of `add_treasure` was successful: it printed its confirmation. -/
def Run.added (r : Run) : Bool := r.out.any Out.isAdded

/-- Whether a run of `remove_treasure` was successful: it printed its confirmation. -/
def Run.removed (r : Run) : Bool := r.out.any Out.isRemoved

/-- An invocation that changes the records of a hunt, with what it takes from
its environment. -/
inductive Op where
  | add (ts : Bytes) (inp : Input)
  | remove (ts : Bytes) (treasure_id : Int)
  deriving DecidableEq, Repr

/-- Whether an invocation is an `add` with input the C types allow. -/
def Op.isAdd : Op → Bool
  | .add _ inp => decide inp.WF
  | .remove _ _ => false

/-- Whether an invocation is a `remove_treasure`. -/
def Op.isRemove : Op → Bool
  | .add _ _ => false
  | .remove _ _ => true

/-- The state a hunt is in after the invocations of `ops`, one process after
the other, when each of them is successful; nothing when one is not. -/
def run_ops (hunt_id : Bytes) : List Op → HuntFS → Option HuntFS
  | [], s => some s
  | .add ts inp :: ops, s =>
    let r := add_treasure ts hunt_id inp s
    if r.added then run_ops hunt_id ops r.fs else none
  | .remove ts treasure_id :: ops, s =>
    let r := remove_treasure ts hunt_id treasure_id s
    if r.removed then run_ops hunt_id ops r.fs else none

/-- The ids `1, 2, …, k`. -/
def idsUpTo (k : Nat) : List Int := (List.range' 1 k).map Int.ofNat

/-! ## Concrete hunts -/

/-- A time stamp as `strftime` writes it. -/
def ts0 : Bytes := str "2024-01-02 03:04:05"

/-- The hunt id of the examples. -/
def pirate : Bytes := str "pirate"

/-- The input of a first treasure. -/
def inpA : Input :=
  ⟨str "alice\n", [0, 0, 0, 0, 0, 0, 37, 64], [0, 0, 0, 0, 0, 64, 52, 64], str "dig here\n", 100,
    List.replicate 336 170⟩

/-- The input of a second treasure. -/
def inpB : Input :=
  ⟨str "bob\n", [0, 0, 0, 0, 0, 0, 0, 0], [0, 0, 0, 0, 0, 0, 0, 0], str "under the oak\n", 50,
    List.replicate 336 255⟩

/-- The hunt after `--add pirate` with `inpA` on a fresh hunt. -/
def hunt1 : HuntFS := (add_treasure ts0 pirate inpA HuntFS.fresh).fs

/-- The hunt after a second `--add pirate`, with `inpB`. -/
def hunt2 : HuntFS := (add_treasure ts0 pirate inpB hunt1).fs

/-- A records file of `2 ^ 31 - 1` complete records. -/
def bigFile : Bytes := List.replicate (sizeofTreasure * 2147483647) 0

/-- A hunt whose records file is `bigFile`. -/
def bigHunt : HuntFS := ⟨.dir, some bigFile, none, none, false, none⟩

/-- The hunt after `--remove_treasure pirate 1` on `hunt2`. -/
def hunt3 : HuntFS := (remove_treasure ts0 pirate 1 hunt2).fs

/-- The hunt after a third `--add pirate`, with `inpB`, on `hunt3`. -/
def hunt4 : HuntFS := (add_treasure ts0 pirate inpB hunt3).fs

/-- Whether a byte is a decimal digit. -/
def isDigit (c : Nat) : Bool := decide (48 ≤ c) && decide (c ≤ 57)

/-- Whether a text has the form `YYYY-MM-DD HH:MM:SS`: what `strftime` writes
for the format of `log_operation` and a year of four digits. -/
def TimestampShape (ts : Bytes) : Prop :=
  ts.length = 19 ∧
    (∀ i ∈ [0, 1, 2, 3, 5, 6, 8, 9, 11, 12, 14, 15, 17, 18], isDigit (ts.getD i 0) = true) ∧
    ts.getD 4 0 = 45 ∧ ts.getD 7 0 = 45 ∧ ts.getD 10 0 = 32 ∧ ts.getD 13 0 = 58 ∧
    ts.getD 16 0 = 58

instance (ts : Bytes) : Decidable (TimestampShape ts) := by
  unfold TimestampShape; infer_instance

/-- The hunt `ensure_hunt_dir` creates: a directory with an empty log and no
records file. -/
def emptyHunt : HuntFS := (ensure_hunt_dir pirate HuntFS.fresh).fs

/-- An operation text of 489 bytes. -/
def longOperation : Bytes := List.replicate 489 97

/-- A records file of two records that both have id 2: the records of `hunt4`. -/
def twins : Bytes := hunt4.datBytes

/-! ## Facts about `int` -/

theorem wrapInt_of_range (z : Int) (h1 : -2147483648 ≤ z) (h2 : z < 2147483648) :
    wrapInt z = z := by
  unfold wrapInt; omega

theorem wrapInt_succ (a : Int) : wrapInt (wrapInt a + 1) = wrapInt (a + 1) := by
  unfold wrapInt; omega

theorem wrapInt_idem (a : Int) : wrapInt (wrapInt a) = wrapInt a := by
  unfold wrapInt; omega

theorem wrapInt_range (a : Int) : -2147483648 ≤ wrapInt a ∧ wrapInt a < 2147483648 := by
  unfold wrapInt; omega

theorem decodeInt_encodeInt (z : Int) : decodeInt (encodeInt z) = wrapInt z := by
  unfold decodeInt encodeInt wrapInt
  simp only [List.getD_cons_zero, List.getD_cons_succ]
  have h0 : 0 ≤ z % 4294967296 := Int.emod_nonneg _ (by norm_num)
  obtain ⟨u, hu⟩ := Int.eq_ofNat_of_zero_le h0
  rw [hu]
  simp only [Int.toNat_ofNat, Int.ofNat_eq_coe]
  have hlt : u < 4294967296 := by omega
  have : u % 256 % 256 + 256 * (u / 256 % 256 % 256) + 65536 * (u / 65536 % 256 % 256)
      + 16777216 * (u / 16777216 % 256 % 256) = u := by omega
  rw [this]
  omega

theorem encodeInt_length (z : Int) : (encodeInt z).length = 4 := rfl

/-! ## Facts about the records of a file -/

theorem recordsAux_fuel : ∀ (fuel : Nat) (rest : Bytes), rest.length ≤ fuel →
    recordsAux fuel rest = recordsAux rest.length rest := by
  intro fuel
  induction fuel using Nat.strong_induction_on with
  | _ fuel ih =>
    intro rest h
    cases fuel with
    | zero =>
      have : rest.length = 0 := by omega
      rw [this]
    | succ fuel =>
      cases hl : rest.length with
      | zero =>
        have hr : rest = [] := List.length_eq_zero.mp hl
        subst hr
        simp [recordsAux, sizeofTreasure]
      | succ m =>
        simp only [recordsAux]
        by_cases hc : (rest.take sizeofTreasure).length = sizeofTreasure
        · simp only [hc, if_true]
          have hd : (rest.drop sizeofTreasure).length ≤ m := by
            simp [List.length_take, sizeofTreasure] at hc
            simp [List.length_drop, sizeofTreasure]; omega
          rw [ih fuel (by omega) _ (by omega), ih m (by omega) _ hd]
        · simp only [hc, if_false]

theorem records_short (file : Bytes) (h : file.length < sizeofTreasure) : records file = [] := by
  unfold records
  cases hl : file.length with
  | zero => rfl
  | succ m =>
    simp only [recordsAux]
    have : (file.take sizeofTreasure).length ≠ sizeofTreasure := by
      simp [List.length_take]; omega
    simp only [this, if_false]

theorem records_long (file : Bytes) (h : sizeofTreasure ≤ file.length) :
    records file = file.take sizeofTreasure :: records (file.drop sizeofTreasure) := by
  unfold records
  cases hl : file.length with
  | zero => simp [sizeofTreasure] at h; omega
  | succ m =>
    simp only [recordsAux]
    have hc : (file.take sizeofTreasure).length = sizeofTreasure := by
      simp [List.length_take]; omega
    simp only [hc, if_true]
    rw [recordsAux_fuel m]
    simp [List.length_drop, sizeofTreasure]; omega

theorem records_cons_append (r rest : Bytes) (h : r.length = sizeofTreasure) :
    records (r ++ rest) = r :: records rest := by
  rw [records_long _ (by simp [h])]
  simp [List.take_append_eq_append_take, List.drop_append_eq_append_drop, h]

theorem mem_records_length : ∀ (n : Nat) (file : Bytes), file.length ≤ n →
    ∀ r ∈ records file, r.length = sizeofTreasure := by
  intro n
  induction n using Nat.strong_induction_on with
  | _ n ih =>
    intro file hn r hr
    by_cases h : sizeofTreasure ≤ file.length
    · rw [records_long _ h] at hr
      rcases List.mem_cons.mp hr with rfl | hr
      · simp [List.length_take]; omega
      · have h336 : 0 < sizeofTreasure := by decide
        exact ih (file.length - sizeofTreasure) (by omega) _ (by simp [List.length_drop]) r hr
    · rw [records_short _ (by omega)] at hr
      cases hr

theorem length_of_mem_records {file : Bytes} {r : Treasure} (h : r ∈ records file) :
    r.length = sizeofTreasure := mem_records_length file.length file le_rfl r h

theorem records_flatten (l : List Treasure) (h : ∀ r ∈ l, r.length = sizeofTreasure) :
    records l.flatten = l := by
  induction l with
  | nil => rfl
  | cons r l ih =>
    rw [List.flatten_cons, records_cons_append _ _ (h r (List.mem_cons_self _ _)),
      ih (fun x hx => h x (List.mem_cons_of_mem _ hx))]

theorem length_records : ∀ (n : Nat) (file : Bytes), file.length ≤ n →
    (records file).length = file.length / sizeofTreasure := by
  intro n
  induction n using Nat.strong_induction_on with
  | _ n ih =>
    intro file hn
    have h336 : 0 < sizeofTreasure := by decide
    by_cases h : sizeofTreasure ≤ file.length
    · rw [records_long _ h, List.length_cons,
        ih (file.length - sizeofTreasure) (by omega) _ (by simp [List.length_drop])]
      simp only [List.length_drop]
      rw [← Nat.sub_add_cancel h, Nat.add_sub_cancel, Nat.add_div_right _ h336]
    · rw [records_short _ (by omega)]
      simp only [List.length_nil]
      exact (Nat.div_eq_of_lt (by omega)).symm

theorem records_length (file : Bytes) : (records file).length = file.length / sizeofTreasure :=
  length_records file.length file le_rfl

theorem records_append : ∀ (n : Nat) (b c : Bytes), b.length = sizeofTreasure * n →
    records (b ++ c) = records b ++ records c := by
  intro n
  induction n with
  | zero =>
    intro b c h
    have : b = [] := List.length_eq_zero.mp (by simpa using h)
    subst this
    simp [records_short, sizeofTreasure]
  | succ n ih =>
    intro b c h
    have h336 : 0 < sizeofTreasure := by decide
    have hb : sizeofTreasure ≤ b.length := by rw [h, Nat.mul_succ]; omega
    have hsplit : b = b.take sizeofTreasure ++ b.drop sizeofTreasure :=
      (List.take_append_drop _ _).symm
    have hl : (b.take sizeofTreasure).length = sizeofTreasure := by
      simp [List.length_take]; omega
    have hd : (b.drop sizeofTreasure).length = sizeofTreasure * n := by
      simp only [List.length_drop, h, Nat.mul_succ]; omega
    rw [hsplit, List.append_assoc, records_cons_append _ _ hl, records_cons_append _ _ hl,
      ih _ _ hd, List.cons_append]

theorem flatten_records : ∀ (n : Nat) (b : Bytes), b.length = sizeofTreasure * n →
    (records b).flatten = b := by
  intro n
  induction n with
  | zero =>
    intro b h
    have : b = [] := List.length_eq_zero.mp (by simpa using h)
    subst this
    simp [records_short, sizeofTreasure]
  | succ n ih =>
    intro b h
    have h336 : 0 < sizeofTreasure := by decide
    have hb : sizeofTreasure ≤ b.length := by rw [h, Nat.mul_succ]; omega
    have hd : (b.drop sizeofTreasure).length = sizeofTreasure * n := by
      simp only [List.length_drop, h, Nat.mul_succ]; omega
    rw [records_long _ hb, List.flatten_cons, ih _ hd, List.take_append_drop]

/-! ## The loops, in terms of the records of the file -/

theorem wrapInt_add_succ (c : Int) (n : Nat) :
    wrapInt (wrapInt (c + 1) + (n : Int)) = wrapInt (c + ((n + 1 : Nat) : Int)) := by
  unfold wrapInt; push_cast; omega

theorem get_next_id_loop_eq : ∀ (fuel : Nat) (rest : Bytes) (count : Int), rest.length ≤ fuel →
    wrapInt (get_next_id_loop fuel rest count) = wrapInt (count + (records rest).length) := by
  intro fuel
  induction fuel with
  | zero =>
    intro rest count h
    have : rest = [] := List.length_eq_zero.mp (by omega)
    subst this
    rw [records_short _ (by decide)]
    simp [get_next_id_loop]
  | succ fuel ih =>
    intro rest count h
    have h336 : 0 < sizeofTreasure := by decide
    simp only [get_next_id_loop]
    by_cases hc : sizeofTreasure ≤ rest.length
    · have hl : (rest.take sizeofTreasure).length = sizeofTreasure := by
        simp [List.length_take]; omega
      simp only [hl, if_true]
      rw [ih _ _ (by simp [List.length_drop]; omega), records_long _ hc, List.length_cons]
      exact wrapInt_add_succ _ _
    · have hl : (rest.take sizeofTreasure).length ≠ sizeofTreasure := by
        simp [List.length_take]; omega
      simp only [hl, if_false]
      rw [records_short _ (by omega)]
      simp
theorem view_loop_eq : ∀ (fuel : Nat) (rest : Bytes) (treasure_id : Int), rest.length ≤ fuel →
    view_loop fuel rest treasure_id
      = (records rest).find? (fun t => decide (Treasure.id t = treasure_id)) := by
  intro fuel
  induction fuel with
  | zero =>
    intro rest treasure_id h
    have : rest = [] := List.length_eq_zero.mp (by omega)
    subst this
    rw [records_short _ (by decide)]
    rfl
  | succ fuel ih =>
    intro rest treasure_id h
    have h336 : 0 < sizeofTreasure := by decide
    simp only [view_loop]
    by_cases hc : sizeofTreasure ≤ rest.length
    · have hl : (rest.take sizeofTreasure).length = sizeofTreasure := by
        simp [List.length_take]; omega
      simp only [hl, if_true]
      rw [records_long _ hc]
      by_cases hid : Treasure.id (rest.take sizeofTreasure) = treasure_id
      · rw [List.find?_cons_of_pos _ (by simpa using hid), if_pos hid]
      · rw [List.find?_cons_of_neg _ (by simpa using hid), if_neg hid]
        exact ih _ _ (by simp [List.length_drop]; omega)
    · have hl : (rest.take sizeofTreasure).length ≠ sizeofTreasure := by
        simp [List.length_take]; omega
      simp only [hl, if_false]
      rw [records_short _ (by omega)]
      rfl
theorem list_loop_eq : ∀ (fuel : Nat) (rest : Bytes) (count : Int), rest.length ≤ fuel →
    (list_loop fuel rest count).1 = (records rest).map (fun t =>
      Out.listLine (Treasure.id t) (Treasure.username t) (Treasure.value t)) ∧
    wrapInt (list_loop fuel rest count).2 = wrapInt (count + (records rest).length) := by
  intro fuel
  induction fuel with
  | zero =>
    intro rest count h
    have : rest = [] := List.length_eq_zero.mp (by omega)
    subst this
    rw [records_short _ (by decide)]
    simp [list_loop]
  | succ fuel ih =>
    intro rest count h
    have h336 : 0 < sizeofTreasure := by decide
    simp only [list_loop]
    by_cases hc : sizeofTreasure ≤ rest.length
    · have hl : (rest.take sizeofTreasure).length = sizeofTreasure := by
        simp [List.length_take]; omega
      have hi := ih (rest.drop sizeofTreasure) (wrapInt (count + 1))
        (by simp [List.length_drop]; omega)
      simp only [hl, if_true]
      rw [records_long _ hc, List.map_cons, hi.1, hi.2, List.length_cons]
      exact ⟨rfl, wrapInt_add_succ _ _⟩
    · have hl : (rest.take sizeofTreasure).length ≠ sizeofTreasure := by
        simp [List.length_take]; omega
      simp only [hl, if_false]
      rw [records_short _ (by omega)]
      simp

theorem remove_loop_eq : ∀ (fuel : Nat) (rest : Bytes) (treasure_id : Int) (found : Bool)
    (s : HuntFS) (acc : Bytes), rest.length ≤ fuel → s.temp = some acc →
    remove_loop fuel rest treasure_id found s
      = some (found || (records rest).any (fun t => decide (Treasure.id t = treasure_id)),
          { s with temp := some (acc ++ ((records rest).filter
            (fun t => !decide (Treasure.id t = treasure_id))).flatten) }) := by
  intro fuel
  induction fuel with
  | zero =>
    intro rest treasure_id found s acc h hs
    have : rest = [] := List.length_eq_zero.mp (by omega)
    subst this
    cases s
    simp_all [remove_loop, records_short, sizeofTreasure]
  | succ fuel ih =>
    intro rest treasure_id found s acc h hs
    have h336 : 0 < sizeofTreasure := by decide
    simp only [remove_loop]
    by_cases hc : sizeofTreasure ≤ rest.length
    · have hl : (rest.take sizeofTreasure).length = sizeofTreasure := by
        simp [List.length_take]; omega
      have hd : (rest.drop sizeofTreasure).length ≤ fuel := by
        simp [List.length_drop]; omega
      simp only [hl, if_true]
      rw [records_long _ hc]
      by_cases hid : Treasure.id (rest.take sizeofTreasure) = treasure_id
      · simp only [hid, if_true]
        rw [ih _ _ _ _ acc hd hs]
        simp [hid]
      · simp only [hid, if_false, sys_write, hl, ne_eq, not_true_eq_false]
        rw [ih _ _ _ _ (acc ++ rest.take sizeofTreasure) hd (by simp [HuntFS.put, HuntFS.raw, hs])]
        simp [hid, HuntFS.put]
    · have hl : (rest.take sizeofTreasure).length ≠ sizeofTreasure := by
        simp [List.length_take]; omega
      simp only [hl, if_false]
      rw [records_short _ (by omega)]
      cases s
      simp_all
/-! ## Facts about objects and their fields -/

theorem slice_getElem? (b : Bytes) (o n i : Nat) :
    (slice b o n)[i]? = if i < n then b[o + i]? else none := by
  unfold slice
  by_cases h : i < n
  · simp [h, List.getElem?_take, List.getElem?_drop]
  · simp [h, List.getElem?_take]

theorem store_getElem? (b v : Bytes) (off i : Nat) (h : off ≤ b.length) :
    (store b off v)[i]? =
      if i < off then b[i]? else if i < off + v.length then v[i - off]? else b[i]? := by
  unfold store
  by_cases h1 : i < off
  · simp [h1, List.getElem?_append_left, List.length_take, h, List.getElem?_take]
  · by_cases h2 : i < off + v.length
    · rw [List.append_assoc, List.getElem?_append_right (by simp [List.length_take]; omega)]
      simp only [h1, h2, if_true, if_false, List.length_take, Nat.min_eq_left h]
      rw [List.getElem?_append_left (by omega)]
    · rw [List.append_assoc, List.getElem?_append_right (by simp [List.length_take]; omega)]
      simp only [h1, h2, if_false, List.length_take, Nat.min_eq_left h]
      rw [List.getElem?_append_right (by omega), List.getElem?_drop]
      congr 1; omega

theorem length_store (b v : Bytes) (off : Nat) (h : off + v.length ≤ b.length) :
    (store b off v).length = b.length := by
  simp [store, List.length_take, List.length_drop]; omega

theorem slice_store_of_le (b v : Bytes) (off o n : Nat) (h1 : o + n ≤ off)
    (h2 : off ≤ b.length) : slice (store b off v) o n = slice b o n := by
  apply List.ext_getElem?
  intro i
  rw [slice_getElem?, slice_getElem?, store_getElem? _ _ _ _ h2]
  by_cases hi : i < n
  · simp only [hi, if_true]; rw [if_pos (by omega)]
  · simp only [hi, if_false]

theorem slice_store_of_ge (b v : Bytes) (off o n : Nat) (h1 : off + v.length ≤ o)
    (h2 : off + v.length ≤ b.length) : slice (store b off v) o n = slice b o n := by
  apply List.ext_getElem?
  intro i
  rw [slice_getElem?, slice_getElem?, store_getElem? _ _ _ _ (by omega)]
  by_cases hi : i < n
  · simp only [hi, if_true]; rw [if_neg (by omega), if_neg (by omega)]
  · simp only [hi, if_false]

theorem slice_store_self (b v : Bytes) (off : Nat) (h : off ≤ b.length) :
    slice (store b off v) off v.length = v := by
  apply List.ext_getElem?
  intro i
  rw [slice_getElem?, store_getElem? _ _ _ _ h]
  by_cases hi : i < v.length
  · simp only [hi, if_true]; rw [if_neg (by omega), if_pos (by omega)]
    congr 1; omega
  · simp only [hi, if_false]
    exact (List.getElem?_eq_none (by omega)).symm

theorem slice_store_inside (b v : Bytes) (off o n : Nat) (h1 : o ≤ off)
    (h2 : off + v.length ≤ o + n) (h3 : o + n ≤ b.length) :
    slice (store b off v) o n = store (slice b o n) (off - o) v := by
  have hsl : (slice b o n).length = n := by
    simp [slice, List.length_take, List.length_drop]; omega
  apply List.ext_getElem?
  intro i
  rw [slice_getElem?, store_getElem? _ _ _ _ (by omega), store_getElem? _ _ _ _ (by omega),
    slice_getElem?]
  by_cases hi : i < n
  · simp only [hi, if_true]
    by_cases ha : i < off - o
    · rw [if_pos ha, if_pos (by omega)]
    · rw [if_neg ha, if_neg (by omega)]
      by_cases hb : i < off - o + v.length
      · rw [if_pos hb, if_pos (by omega)]; congr 1; omega
      · rw [if_neg hb, if_neg (by omega)]
  · simp only [hi, if_false]
    rw [if_neg (by omega), if_neg (by omega)]

theorem length_slice (b : Bytes) (o n : Nat) (h : o + n ≤ b.length) :
    (slice b o n).length = n := by
  simp [slice, List.length_take, List.length_drop]; omega
theorem takeWhile_append_stop (p : Nat → Bool) (u g : Bytes) (z : Nat) (hz : p z = false) :
    (u ++ z :: g).takeWhile p = u.takeWhile p := by
  induction u with
  | nil => simp [List.takeWhile_cons, hz]
  | cons a u ih =>
    simp only [List.cons_append, List.takeWhile_cons]
    cases p a
    · rfl
    · simp only [ih]

theorem strcspn_nl_line (u g : Bytes) : strcspn_nl (u ++ 0 :: g) = (entered u).length := by
  unfold strcspn_nl entered
  rw [takeWhile_append_stop _ _ _ _ (by simp)]

theorem cstr_cut (u g : Bytes) :
    cstr (store (u ++ 0 :: g) (entered u).length [0]) = entered u := by
  have hsplit : u = entered u ++ u.dropWhile (fun c => decide (c ≠ 0) && decide (c ≠ 10)) :=
    (List.takeWhile_append_dropWhile _ _).symm
  generalize hr : u.dropWhile (fun c => decide (c ≠ 0) && decide (c ≠ 10)) = rest at hsplit
  generalize hw : entered u = w at hsplit
  have hw0 : ∀ a ∈ w, decide (a ≠ 0) = true := by
    intro a ha
    rw [← hw] at ha
    have := List.mem_takeWhile_imp ha
    simp only [Bool.and_eq_true] at this
    exact this.1
  subst hsplit
  unfold store cstr
  simp only [List.append_assoc, List.length_cons, List.length_nil]
  rw [List.take_left, List.takeWhile_append_of_pos hw0]
  simp [List.takeWhile_cons]

theorem entered_length_le (u : Bytes) : (entered u).length ≤ u.length := by
  unfold entered
  exact (List.takeWhile_sublist _).length_le
theorem build_treasure_fields (id : Int) (inp : Input) (h : inp.WF) :
    (build_treasure id inp).length = sizeofTreasure ∧
    Treasure.id (build_treasure id inp) = wrapInt id ∧
    Treasure.username (build_treasure id inp) = entered inp.username ∧
    Treasure.latitude (build_treasure id inp) = inp.latitude ∧
    Treasure.longitude (build_treasure id inp) = inp.longitude ∧
    Treasure.clue (build_treasure id inp) = entered inp.clue ∧
    Treasure.value (build_treasure id inp) = inp.value := by
  obtain ⟨hs, hu, hc, hlat, hlon, hv1, hv2⟩ := h
  simp only [sizeofTreasure, MAX_USERNAME_LEN, MAX_CLUE_LEN] at hs hu hc
  obtain ⟨t1, ht1⟩ : ∃ t1, t1 = store inp.stack 0 (encodeInt id) := ⟨_, rfl⟩
  obtain ⟨t2, ht2⟩ : ∃ t2, t2 = store t1 4 (inp.username ++ [0]) := ⟨_, rfl⟩
  obtain ⟨t3, ht3⟩ : ∃ t3, t3 = store t2 (4 + strcspn_nl (slice t2 4 50)) [0] := ⟨_, rfl⟩
  obtain ⟨t4, ht4⟩ : ∃ t4, t4 = store t3 56 inp.latitude := ⟨_, rfl⟩
  obtain ⟨t5, ht5⟩ : ∃ t5, t5 = store t4 64 inp.longitude := ⟨_, rfl⟩
  obtain ⟨t6, ht6⟩ : ∃ t6, t6 = store t5 72 (inp.clue ++ [0]) := ⟨_, rfl⟩
  obtain ⟨t7, ht7⟩ : ∃ t7, t7 = store t6 (72 + strcspn_nl (slice t6 72 256)) [0] := ⟨_, rfl⟩
  have hb : build_treasure id inp = store t7 328 (encodeInt inp.value) := by
    subst ht7 ht6 ht5 ht4 ht3 ht2 ht1; rfl
  have hel : (encodeInt id).length = 4 := rfl
  have hevl : (encodeInt inp.value).length = 4 := rfl
  have l1 : t1.length = 336 := by rw [ht1, length_store _ _ _ (by omega)]; exact hs
  have l2 : t2.length = 336 := by
    rw [ht2, length_store _ _ _ (by simp; omega)]; exact l1
  -- the user name as `fgets` left it, and where `strcspn` stops
  have hbuf2 : ∃ g, slice t2 4 50 = inp.username ++ 0 :: g := by
    refine ⟨(slice t1 4 50).drop (inp.username.length + 1), ?_⟩
    rw [ht2, slice_store_inside _ _ _ _ _ (by omega) (by simp; omega) (by omega)]
    simp [store]
  obtain ⟨g, hg⟩ := hbuf2
  have hk : strcspn_nl (slice t2 4 50) = (entered inp.username).length := by
    rw [hg, strcspn_nl_line]
  have hkle : (entered inp.username).length ≤ inp.username.length := entered_length_le _
  rw [hk] at ht3
  have l3 : t3.length = 336 := by
    rw [ht3, length_store _ _ _ (by simp; omega)]; exact l2
  have l4 : t4.length = 336 := by rw [ht4, length_store _ _ _ (by omega)]; exact l3
  have l5 : t5.length = 336 := by rw [ht5, length_store _ _ _ (by omega)]; exact l4
  have l6 : t6.length = 336 := by
    rw [ht6, length_store _ _ _ (by simp; omega)]; exact l5
  have hbuf6 : ∃ g, slice t6 72 256 = inp.clue ++ 0 :: g := by
    refine ⟨(slice t5 72 256).drop (inp.clue.length + 1), ?_⟩
    rw [ht6, slice_store_inside _ _ _ _ _ (by omega) (by simp; omega) (by omega)]
    simp [store]
  obtain ⟨g6, hg6⟩ := hbuf6
  have hk6 : strcspn_nl (slice t6 72 256) = (entered inp.clue).length := by
    rw [hg6, strcspn_nl_line]
  have hkle6 : (entered inp.clue).length ≤ inp.clue.length := entered_length_le _
  rw [hk6] at ht7
  have l7 : t7.length = 336 := by
    rw [ht7, length_store _ _ _ (by simp; omega)]; exact l6
  have l1s : ([0] : Bytes).length = 1 := rfl
  have lu : (inp.username ++ [0]).length = inp.username.length + 1 := by simp
  have lc : (inp.clue ++ [0]).length = inp.clue.length + 1 := by simp
  refine ⟨?_, ?_, ?_, ?_, ?_, ?_, ?_⟩
  · rw [hb, length_store _ _ _ (by omega)]; exact l7
  · unfold Treasure.id OFF_id
    rw [hb, slice_store_of_le _ _ _ _ _ (by omega) (by omega),
      ht7, slice_store_of_le _ _ _ _ _ (by omega) (by omega),
      ht6, slice_store_of_le _ _ _ _ _ (by omega) (by omega),
      ht5, slice_store_of_le _ _ _ _ _ (by omega) (by omega),
      ht4, slice_store_of_le _ _ _ _ _ (by omega) (by omega),
      ht3, slice_store_of_le _ _ _ _ _ (by omega) (by omega),
      ht2, slice_store_of_le _ _ _ _ _ (by omega) (by omega), ht1]
    have := slice_store_self inp.stack (encodeInt id) 0 (by omega)
    rw [hel] at this
    rw [this, decodeInt_encodeInt]
  · unfold Treasure.username OFF_username MAX_USERNAME_LEN
    rw [hb, slice_store_of_le _ _ _ _ _ (by omega) (by omega),
      ht7, slice_store_of_le _ _ _ _ _ (by omega) (by omega),
      ht6, slice_store_of_le _ _ _ _ _ (by omega) (by omega),
      ht5, slice_store_of_le _ _ _ _ _ (by omega) (by omega),
      ht4, slice_store_of_le _ _ _ _ _ (by omega) (by omega),
      ht3, slice_store_inside _ _ _ _ _ (by omega) (by omega) (by omega), hg,
      Nat.add_sub_cancel_left, cstr_cut]
  · unfold Treasure.latitude OFF_latitude
    rw [hb, slice_store_of_le _ _ _ _ _ (by omega) (by omega),
      ht7, slice_store_of_le _ _ _ _ _ (by omega) (by omega),
      ht6, slice_store_of_le _ _ _ _ _ (by omega) (by omega),
      ht5, slice_store_of_le _ _ _ _ _ (by omega) (by omega), ht4]
    have := slice_store_self t3 inp.latitude 56 (by omega)
    rw [hlat] at this
    exact this
  · unfold Treasure.longitude OFF_longitude
    rw [hb, slice_store_of_le _ _ _ _ _ (by omega) (by omega),
      ht7, slice_store_of_le _ _ _ _ _ (by omega) (by omega),
      ht6, slice_store_of_le _ _ _ _ _ (by omega) (by omega), ht5]
    have := slice_store_self t4 inp.longitude 64 (by omega)
    rw [hlon] at this
    exact this
  · unfold Treasure.clue OFF_clue MAX_CLUE_LEN
    rw [hb, slice_store_of_le _ _ _ _ _ (by omega) (by omega),
      ht7, slice_store_inside _ _ _ _ _ (by omega) (by omega) (by omega), hg6,
      Nat.add_sub_cancel_left, cstr_cut]
  · unfold Treasure.value OFF_value
    rw [hb]
    have := slice_store_self t7 (encodeInt inp.value) 328 (by omega)
    rw [hevl] at this
    rw [this, decodeInt_encodeInt, wrapInt_of_range _ hv1 hv2]
/-! ## The operations on a hunt whose directory exists -/

theorem log_operation_dir (ts operation : Bytes) (s : HuntFS) (h : s.node = .dir) :
    log_operation ts operation s
      = ({ s with log := some (s.log.getD [] ++ log_entry ts operation) }, []) := by
  cases s
  simp only at h
  subst h
  simp [log_operation, sys_open_creat, sys_write, HuntFS.put, HuntFS.raw]

theorem log_operation_not_dir (ts operation : Bytes) (s : HuntFS) (h : s.node ≠ .dir) :
    log_operation ts operation s = (s, [.logOpenFailed s.dirErrno]) := by
  simp [log_operation, sys_open_creat, h]

theorem get_next_id_dir (s : HuntFS) (b : Bytes) (h : s.node = .dir) (hd : s.dat = some b) :
    get_next_id s = wrapInt ((b.length / sizeofTreasure : Nat) + 1) := by
  simp only [get_next_id, sys_open_rdonly, h, if_true, HuntFS.raw, hd]
  rw [← wrapInt_succ, get_next_id_loop_eq _ _ _ le_rfl, wrapInt_succ, records_length]
  simp

theorem get_next_id_absent (s : HuntFS) (h : s.file .dat = none) : get_next_id s = 1 := by
  unfold HuntFS.file at h
  unfold get_next_id sys_open_rdonly
  by_cases hn : s.node = .dir
  · simp only [hn, if_true] at h ⊢
    simp [h]
  · simp only [hn, if_false]
theorem ensure_hunt_dir_dir (hunt_id : Bytes) (s : HuntFS) (h : s.node = .dir) :
    ensure_hunt_dir hunt_id s = ⟨s, [], none⟩ := by
  simp only [ensure_hunt_dir, hunt_exists, sys_stat_isdir, h, decide_True, Bool.not_true,
    Bool.false_eq_true, if_false]

theorem ensure_hunt_dir_absent (hunt_id : Bytes) (s : HuntFS) (h : s.node = .absent) :
    ensure_hunt_dir hunt_id s = ⟨⟨.dir, none, some [], none, false,
      some (hunt_id ++ str "/" ++ str "logged_hunt")⟩, [.createdHunt hunt_id], none⟩ := by
  obtain ⟨node, dat, log, temp, extra, link⟩ := s
  simp only at h
  subst h
  cases link <;> rfl

theorem ensure_hunt_dir_other (hunt_id : Bytes) (s : HuntFS) (h : s.node = .other) :
    ensure_hunt_dir hunt_id s = ⟨s, [.mkdirFailed .EEXIST], some 1⟩ := by
  obtain ⟨node, dat, log, temp, extra, link⟩ := s
  simp only at h
  subst h
  rfl

/-- The run of `add_treasure` once `ensure_hunt_dir` has returned with the
directory in place. -/
theorem add_treasure_after (ts hunt_id : Bytes) (inp : Input) (s : HuntFS) (hwf : inp.WF)
    (he : (ensure_hunt_dir hunt_id s).exit = none)
    (hd : (ensure_hunt_dir hunt_id s).fs.node = .dir) :
    add_treasure ts hunt_id inp s =
      ⟨{ (ensure_hunt_dir hunt_id s).fs with
          dat := some ((ensure_hunt_dir hunt_id s).fs.dat.getD [] ++ build_treasure
            (wrapInt ((((ensure_hunt_dir hunt_id s).fs.dat.getD []).length / sizeofTreasure
              : Nat) + 1)) inp),
          log := some ((ensure_hunt_dir hunt_id s).fs.log.getD [] ++ log_entry ts
            (snprintf 256 (str "Added treasure " ++ fmtInt
              (wrapInt ((((ensure_hunt_dir hunt_id s).fs.dat.getD []).length / sizeofTreasure
                : Nat) + 1)) ++ str " by " ++ entered inp.username))) },
        (ensure_hunt_dir hunt_id s).out ++
          [.promptUsername, .promptLatitude, .promptLongitude, .promptClue, .promptValue,
            .added (wrapInt ((((ensure_hunt_dir hunt_id s).fs.dat.getD []).length
              / sizeofTreasure : Nat) + 1)) hunt_id],
        none⟩ := by
  unfold add_treasure
  generalize ensure_hunt_dir hunt_id s = r at he hd ⊢
  obtain ⟨⟨node, dat, log, temp, extra, link⟩, out, exit⟩ := r
  simp only at he hd
  subst he hd
  have hid : get_next_id ⟨.dir, some (dat.getD []), log, temp, extra, link⟩
      = wrapInt (((dat.getD []).length / sizeofTreasure : Nat) + 1) :=
    get_next_id_dir _ _ rfl rfl
  have hid2 := wrapInt_idem (((dat.getD []).length / sizeofTreasure : Nat) + 1)
  generalize wrapInt (((dat.getD []).length / sizeofTreasure : Nat) + 1) = id at hid hid2
  obtain ⟨hlen, hidf, hun, -⟩ := build_treasure_fields id inp hwf
  have htake : (build_treasure id inp).take sizeofTreasure = build_treasure id inp :=
    List.take_of_length_le (by rw [hlen])
  simp only [sys_open_creat, if_true, HuntFS.put, HuntFS.raw, hid, htake, sys_write, hlen,
    ne_eq, not_true_eq_false, hidf, hid2, hun, log_operation, List.nil_append,
    List.append_nil, Option.getD_some, if_false, Bool.false_eq_true, List.append_assoc]
  rfl

theorem add_treasure_dir (ts hunt_id : Bytes) (inp : Input) (s : HuntFS) (h : s.node = .dir)
    (hwf : inp.WF) :
    add_treasure ts hunt_id inp s =
      ⟨{ s with
          dat := some (s.dat.getD [] ++ build_treasure
            (wrapInt (((s.dat.getD []).length / sizeofTreasure : Nat) + 1)) inp),
          log := some (s.log.getD [] ++ log_entry ts (snprintf 256 (str "Added treasure "
            ++ fmtInt (wrapInt (((s.dat.getD []).length / sizeofTreasure : Nat) + 1))
            ++ str " by " ++ entered inp.username))) },
        [.promptUsername, .promptLatitude, .promptLongitude, .promptClue, .promptValue,
          .added (wrapInt (((s.dat.getD []).length / sizeofTreasure : Nat) + 1)) hunt_id],
        none⟩ := by
  have he := ensure_hunt_dir_dir hunt_id s h
  rw [add_treasure_after ts hunt_id inp s hwf (by rw [he]) (by rw [he]; exact h), he]
  rfl

theorem add_treasure_absent (ts hunt_id : Bytes) (inp : Input) (s : HuntFS)
    (h : s.node = .absent) (hwf : inp.WF) :
    add_treasure ts hunt_id inp s =
      ⟨⟨.dir, some (build_treasure 1 inp), some (log_entry ts (snprintf 256
          (str "Added treasure " ++ fmtInt 1 ++ str " by " ++ entered inp.username))),
          none, false, some (hunt_id ++ str "/" ++ str "logged_hunt")⟩,
        [.createdHunt hunt_id, .promptUsername, .promptLatitude, .promptLongitude, .promptClue,
          .promptValue, .added 1 hunt_id],
        none⟩ := by
  have he := ensure_hunt_dir_absent hunt_id s h
  have h1 : wrapInt (((([] : Bytes).length / sizeofTreasure : Nat) : Int) + 1) = 1 := by
    rw [List.length_nil, Nat.zero_div]
    exact wrapInt_of_range 1 (by norm_num) (by norm_num)
  rw [add_treasure_after ts hunt_id inp s hwf (by rw [he]) (by rw [he]), he]
  simp only [Option.getD_none, Option.getD_some, h1, List.nil_append, List.cons_append]

theorem add_treasure_other (ts hunt_id : Bytes) (inp : Input) (s : HuntFS)
    (h : s.node = .other) :
    add_treasure ts hunt_id inp s = ⟨s, [.mkdirFailed .EEXIST], some 1⟩ := by
  simp only [add_treasure, ensure_hunt_dir_other _ _ h]
theorem view_treasure_found (ts hunt_id : Bytes) (treasure_id : Int) (s : HuntFS) (b : Bytes)
    (t : Treasure) (h : s.node = .dir) (hd : s.dat = some b)
    (hf : (records b).find? (fun r => decide (Treasure.id r = treasure_id)) = some t) :
    view_treasure ts hunt_id treasure_id s =
      ⟨{ s with log := some (s.log.getD [] ++ log_entry ts
          (snprintf 256 (str "Viewed treasure " ++ fmtInt treasure_id))) },
        [show_treasure t], none⟩ := by
  simp only [view_treasure, hunt_exists, sys_stat_isdir, h, decide_True, Bool.not_true,
    Bool.false_eq_true, if_false, sys_open_rdonly, if_true, HuntFS.raw, hd,
    view_loop_eq _ _ _ le_rfl, hf, log_operation_dir _ _ _ h]

theorem view_treasure_not_found (ts hunt_id : Bytes) (treasure_id : Int) (s : HuntFS)
    (b : Bytes) (h : s.node = .dir) (hd : s.dat = some b)
    (hf : (records b).find? (fun r => decide (Treasure.id r = treasure_id)) = none) :
    view_treasure ts hunt_id treasure_id s = ⟨s, [.notFound treasure_id hunt_id], none⟩ := by
  simp only [view_treasure, hunt_exists, sys_stat_isdir, h, decide_True, Bool.not_true,
    Bool.false_eq_true, if_false, sys_open_rdonly, if_true, HuntFS.raw, hd,
    view_loop_eq _ _ _ le_rfl, hf]

theorem remove_treasure_found (ts hunt_id : Bytes) (treasure_id : Int) (s : HuntFS) (b : Bytes)
    (h : s.node = .dir) (hd : s.dat = some b)
    (hf : (records b).any (fun r => decide (Treasure.id r = treasure_id)) = true) :
    remove_treasure ts hunt_id treasure_id s =
      ⟨{ s with
          dat := some ((records b).filter
            (fun r => !decide (Treasure.id r = treasure_id))).flatten,
          temp := none,
          log := some (s.log.getD [] ++ log_entry ts
            (snprintf 256 (str "Removed treasure " ++ fmtInt treasure_id))) },
        [.removed treasure_id hunt_id], none⟩ := by
  obtain ⟨node, dat, log, temp, extra, link⟩ := s
  simp only at h hd
  subst h hd
  have hl := remove_loop_eq b.length b treasure_id false
    ⟨.dir, some b, log, some [], extra, link⟩ [] le_rfl rfl
  simp only [remove_treasure, hunt_exists, sys_stat_isdir, decide_True, Bool.not_true,
    Bool.false_eq_true, if_false, sys_open_rdonly, if_true, HuntFS.raw, sys_open_creat,
    HuntFS.put, hl, hf, Bool.false_or, List.nil_append, sys_rename_temp]
  rw [log_operation_dir _ _ _ rfl]
  rfl

theorem remove_treasure_not_found (ts hunt_id : Bytes) (treasure_id : Int) (s : HuntFS)
    (b : Bytes) (h : s.node = .dir) (hd : s.dat = some b)
    (hf : (records b).any (fun r => decide (Treasure.id r = treasure_id)) = false) :
    remove_treasure ts hunt_id treasure_id s =
      ⟨{ s with temp := none }, [.notFound treasure_id hunt_id], none⟩ := by
  obtain ⟨node, dat, log, temp, extra, link⟩ := s
  simp only at h hd
  subst h hd
  have hl := remove_loop_eq b.length b treasure_id false
    ⟨.dir, some b, log, some [], extra, link⟩ [] le_rfl rfl
  simp only [remove_treasure, hunt_exists, sys_stat_isdir, decide_True, Bool.not_true,
    Bool.false_eq_true, if_false, sys_open_rdonly, if_true, HuntFS.raw, sys_open_creat,
    HuntFS.put, hl, hf, Bool.false_or, List.nil_append, Bool.not_false, unlink_temp,
    sys_unlink]

theorem remove_treasure_no_dir (ts hunt_id : Bytes) (treasure_id : Int) (s : HuntFS)
    (h : s.node ≠ .dir) :
    remove_treasure ts hunt_id treasure_id s = ⟨s, [.huntMissing hunt_id], none⟩ := by
  simp only [remove_treasure, hunt_exists, sys_stat_isdir, h, decide_False, Bool.not_false,
    if_true]

theorem remove_treasure_no_file (ts hunt_id : Bytes) (treasure_id : Int) (s : HuntFS)
    (h : s.node = .dir) (hd : s.dat = none) :
    remove_treasure ts hunt_id treasure_id s = ⟨s, [.openFailed .ENOENT], none⟩ := by
  simp only [remove_treasure, hunt_exists, sys_stat_isdir, h, decide_True, Bool.not_true,
    Bool.false_eq_true, if_false, sys_open_rdonly, if_true, HuntFS.raw, hd]
/-! ## Sequences of successful operations -/

theorem hunt_exists_iff (s : HuntFS) : hunt_exists s = true ↔ s.node = .dir := by
  simp only [hunt_exists, sys_stat_isdir, decide_eq_true_eq]

theorem get_next_id_datBytes (s : HuntFS) :
    get_next_id s = wrapInt ((s.datBytes.length / sizeofTreasure : Nat) + 1) := by
  unfold HuntFS.datBytes
  cases hf : s.file .dat with
  | none =>
    rw [get_next_id_absent _ hf, Option.getD_none, List.length_nil, Nat.zero_div]
    exact (wrapInt_of_range 1 (by norm_num) (by norm_num)).symm
  | some b =>
    unfold HuntFS.file at hf
    by_cases hn : s.node = .dir
    · simp only [hn, if_true, HuntFS.raw] at hf
      rw [get_next_id_dir _ _ hn hf, Option.getD_some]
    · simp only [hn, if_false] at hf
      cases hf

theorem datBytes_dir (s : HuntFS) (h : s.node = .dir) : s.datBytes = s.dat.getD [] := by
  simp only [HuntFS.datBytes, HuntFS.file, h, if_true, HuntFS.raw]

theorem datBytes_not_dir (s : HuntFS) (h : s.node ≠ .dir) : s.datBytes = [] := by
  simp only [HuntFS.datBytes, HuntFS.file, h, if_false, Option.getD_none]

theorem idsUpTo_succ (k : Nat) : idsUpTo (k + 1) = idsUpTo k ++ [((k + 1 : Nat) : Int)] := by
  unfold idsUpTo
  rw [List.range'_concat, List.map_append]
  simp [Nat.add_comm]

theorem idsUpTo_nodup (k : Nat) : (idsUpTo k).Nodup := by
  unfold idsUpTo
  exact (List.nodup_range' 1 k).map (fun a b h => Int.ofNat.inj h)

theorem ids_append (b t : Bytes) (k : Nat) (hb : b.length = sizeofTreasure * k)
    (ht : t.length = sizeofTreasure) : ids (b ++ t) = ids b ++ [Treasure.id t] := by
  unfold ids
  have ht1 : records t = [t] := by
    have := records_cons_append t [] ht
    rw [List.append_nil, records_short [] (by decide)] at this
    exact this
  rw [records_append k b t hb, ht1, List.map_append, List.map_singleton]

theorem run_adds_dir (hunt_id : Bytes) : ∀ (ops : List Op) (s s' : HuntFS) (k : Nat),
    (∀ op ∈ ops, op.isAdd = true) → s.node = .dir →
    (s.dat.getD []).length = sizeofTreasure * k → ids (s.dat.getD []) = idsUpTo k →
    k + ops.length < 2147483648 → run_ops hunt_id ops s = some s' →
    s'.node = .dir ∧ (s'.dat.getD []).length = sizeofTreasure * (k + ops.length) ∧
      ids (s'.dat.getD []) = idsUpTo (k + ops.length) := by
  intro ops
  induction ops with
  | nil =>
    intro s s' k _ hn hl hi _ hr
    simp only [run_ops, Option.some.injEq] at hr
    subst hr
    exact ⟨hn, hl, hi⟩
  | cons op ops ih =>
    intro s s' k hadd hn hl hi hk hr
    have h336 : 0 < sizeofTreasure := by decide
    cases op with
    | remove ts id =>
      have := hadd _ (List.mem_cons_self _ _)
      cases this
    | add ts inp =>
      have hwf : inp.WF := by
        have := hadd _ (List.mem_cons_self _ _)
        simpa [Op.isAdd] using this
      have hdiv : (s.dat.getD []).length / sizeofTreasure = k := by
        rw [hl, Nat.mul_div_cancel_left _ h336]
      simp only [List.length_cons] at hk
      have hid : wrapInt (((k : Nat) : Int) + 1) = ((k + 1 : Nat) : Int) := by
        rw [wrapInt_of_range _ (by omega) (by omega)]; push_cast; rfl
      obtain ⟨htl, htid, -⟩ := build_treasure_fields (((k + 1 : Nat) : Int)) inp hwf
      rw [← hid, wrapInt_idem, hid] at htid
      simp only [run_ops, add_treasure_dir ts hunt_id inp s hn hwf, hdiv, hid] at hr
      have hadded : (Run.added ⟨{ s with
          dat := some (s.dat.getD [] ++ build_treasure ((k + 1 : Nat) : Int) inp),
          log := some (s.log.getD [] ++ log_entry ts (snprintf 256 (str "Added treasure "
            ++ fmtInt ((k + 1 : Nat) : Int) ++ str " by " ++ entered inp.username))) },
        [.promptUsername, .promptLatitude, .promptLongitude, .promptClue, .promptValue,
          .added ((k + 1 : Nat) : Int) hunt_id], none⟩) = true := rfl
      rw [if_pos hadded] at hr
      simp only [List.length_cons]
      rw [show k + (ops.length + 1) = k + 1 + ops.length by omega]
      refine ih _ s' (k + 1) (fun op hop => hadd op (List.mem_cons_of_mem _ hop)) ?_ ?_ ?_
        (by omega) hr
      · exact hn
      · simp only [Option.getD_some, List.length_append, hl, htl, Nat.mul_succ]
      · simp only [Option.getD_some]
        rw [ids_append _ _ k hl htl, hi, htid, idsUpTo_succ]

theorem run_adds_fresh (hunt_id : Bytes) (ops : List Op) (s0 s' : HuntFS)
    (h0 : hunt_exists s0 = false) (hadd : ∀ op ∈ ops, op.isAdd = true)
    (hk : ops.length < 2147483648) (hr : run_ops hunt_id ops s0 = some s') :
    s'.datBytes.length = sizeofTreasure * ops.length ∧ ids s'.datBytes = idsUpTo ops.length := by
  have hnd : s0.node ≠ .dir := by
    intro hd
    rw [(hunt_exists_iff s0).mpr hd] at h0
    cases h0
  cases ops with
  | nil =>
    simp only [run_ops, Option.some.injEq] at hr
    subst hr
    rw [datBytes_not_dir s0 hnd]
    exact ⟨rfl, by unfold ids; rw [records_short [] (by decide)]; rfl⟩
  | cons op ops =>
    cases op with
    | remove ts id =>
      have := hadd _ (List.mem_cons_self _ _)
      cases this
    | add ts inp =>
      have hwf : inp.WF := by
        have := hadd _ (List.mem_cons_self _ _)
        simpa [Op.isAdd] using this
      have habs : s0.node = .absent := by
        cases hn : s0.node with
        | dir => exact absurd hn hnd
        | absent => rfl
        | other =>
          simp only [run_ops, add_treasure_other ts hunt_id inp s0 hn] at hr
          have hf : (Run.added ⟨s0, [.mkdirFailed .EEXIST], some 1⟩) = false := rfl
          rw [hf] at hr
          cases hr
      obtain ⟨htl, htid, -⟩ := build_treasure_fields 1 inp hwf
      rw [wrapInt_of_range 1 (by norm_num) (by norm_num)] at htid
      simp only [run_ops, add_treasure_absent ts hunt_id inp s0 habs hwf] at hr
      have hadded : (Run.added ⟨⟨.dir, some (build_treasure 1 inp), some (log_entry ts
          (snprintf 256 (str "Added treasure " ++ fmtInt 1 ++ str " by "
            ++ entered inp.username))), none, false,
          some (hunt_id ++ str "/" ++ str "logged_hunt")⟩,
        [.createdHunt hunt_id, .promptUsername, .promptLatitude, .promptLongitude,
          .promptClue, .promptValue, .added 1 hunt_id], none⟩) = true := rfl
      rw [if_pos hadded] at hr
      simp only [List.length_cons] at hk ⊢
      have hids1 : ids (build_treasure 1 inp) = idsUpTo 1 := by
        have := ids_append [] (build_treasure 1 inp) 0 rfl htl
        rw [List.nil_append, htid] at this
        rw [this]; rfl
      have : s'.node = .dir ∧ (s'.dat.getD []).length = sizeofTreasure * (1 + ops.length) ∧
          ids (s'.dat.getD []) = idsUpTo (1 + ops.length) := by
        refine run_adds_dir hunt_id ops _ s' 1
          (fun op hop => hadd op (List.mem_cons_of_mem _ hop)) ?_ ?_ ?_ (by omega) hr
        · rfl
        · simp only [Option.getD_some, htl, Nat.mul_one]
        · simp only [Option.getD_some]; exact hids1
      rw [datBytes_dir _ this.1, show ops.length + 1 = 1 + ops.length by omega]
      exact this.2

theorem find?_filter_of_imp {α : Type} (p q : α → Bool) (l : List α)
    (h : ∀ a, p a = true → q a = true) : (l.filter q).find? p = l.find? p := by
  induction l with
  | nil => rfl
  | cons a l ih =>
    cases hq : q a with
    | true =>
      rw [List.filter_cons_of_pos hq]
      cases hp : p a with
      | true => rw [List.find?_cons_of_pos _ hp, List.find?_cons_of_pos _ hp]
      | false =>
        rw [List.find?_cons_of_neg _ (by simp [hp]), List.find?_cons_of_neg _ (by simp [hp]), ih]
    | false =>
      have hp : p a = false := by
        cases hp : p a with
        | true => rw [h a hp] at hq; cases hq
        | false => rfl
      rw [List.filter_cons_of_neg (by simp [hq]), List.find?_cons_of_neg _ (by simp [hp]), ih]

theorem length_filter_not_add {α : Type} (p : α → Bool) (l : List α) :
    (l.filter (fun a => !p a)).length + (l.filter p).length = l.length := by
  induction l with
  | nil => rfl
  | cons a l ih =>
    cases hp : p a with
    | true =>
      rw [List.filter_cons_of_neg (by simp [hp]), List.filter_cons_of_pos hp]
      simp only [List.length_cons]; omega
    | false =>
      rw [List.filter_cons_of_pos (by simp [hp]), List.filter_cons_of_neg (by simp [hp])]
      simp only [List.length_cons]; omega

theorem mem_ids_iff (b : Bytes) (t : Int) :
    t ∈ ids b ↔ ∃ r ∈ records b, Treasure.id r = t := by
  unfold ids
  exact List.mem_map

theorem any_of_mem_ids (b : Bytes) (t : Int) (h : t ∈ ids b) :
    (records b).any (fun r => decide (Treasure.id r = t)) = true := by
  obtain ⟨r, hr, hid⟩ := (mem_ids_iff b t).mp h
  exact List.any_eq_true.mpr ⟨r, hr, by simpa using hid⟩

theorem any_of_not_mem_ids (b : Bytes) (t : Int) (h : t ∉ ids b) :
    (records b).any (fun r => decide (Treasure.id r = t)) = false := by
  cases hany : (records b).any (fun r => decide (Treasure.id r = t)) with
  | false => rfl
  | true =>
    obtain ⟨r, hr, hid⟩ := List.any_eq_true.mp hany
    exact absurd ((mem_ids_iff b t).mpr ⟨r, hr, by simpa using hid⟩) h

theorem find?_of_mem_ids (b : Bytes) (u : Int) (h : u ∈ ids b) :
    ∃ r, r ∈ records b ∧ Treasure.id r = u ∧
      (records b).find? (fun r => decide (Treasure.id r = u)) = some r := by
  have : ((records b).find? (fun r => decide (Treasure.id r = u))).isSome = true := by
    rw [List.find?_isSome]
    obtain ⟨r, hr, hid⟩ := (mem_ids_iff b u).mp h
    exact ⟨r, hr, by simpa using hid⟩
  obtain ⟨r, hr⟩ := Option.isSome_iff_exists.mp this
  exact ⟨r, List.mem_of_find?_eq_some hr, by simpa using List.find?_some hr, hr⟩

theorem records_kept (b : Bytes) (t : Int) :
    records ((records b).filter (fun r => !decide (Treasure.id r = t))).flatten
      = (records b).filter (fun r => !decide (Treasure.id r = t)) :=
  records_flatten _ (fun _ hr => length_of_mem_records (List.mem_filter.mp hr).1)

/-! ## The audit log under each operation -/

theorem logBytes_dir (s : HuntFS) (h : s.node = .dir) : s.logBytes = s.log.getD [] := by
  simp only [HuntFS.logBytes, HuntFS.file, h, if_true, HuntFS.raw]

theorem logBytes_not_dir (s : HuntFS) (h : s.node ≠ .dir) : s.logBytes = [] := by
  simp only [HuntFS.logBytes, HuntFS.file, h, if_false, Option.getD_none]

theorem log_operation_extends_log (ts operation : Bytes) (s : HuntFS) :
    s.logBytes <+: (log_operation ts operation s).1.logBytes := by
  by_cases h : s.node = .dir
  · rw [log_operation_dir _ _ _ h, logBytes_dir s h]
    simp only [HuntFS.logBytes, HuntFS.file, h, if_true, HuntFS.raw, Option.getD_some]
    exact List.prefix_append _ _
  · rw [log_operation_not_dir _ _ _ h]

theorem ensure_hunt_dir_extends_log (hunt_id : Bytes) (s : HuntFS) :
    s.logBytes <+: (ensure_hunt_dir hunt_id s).fs.logBytes := by
  cases hn : s.node with
  | dir => rw [ensure_hunt_dir_dir _ _ hn]
  | other => rw [ensure_hunt_dir_other _ _ hn]
  | absent =>
    rw [logBytes_not_dir s (by rw [hn]; decide)]
    exact List.nil_prefix

theorem logBytes_put (s : HuntFS) (f : File) (v : Option Bytes) (hf : f ≠ .log) :
    (s.put f v).logBytes = s.logBytes := by
  cases f with
  | log => exact absurd rfl hf
  | dat => rfl
  | temp => rfl

theorem add_treasure_extends_log (ts hunt_id : Bytes) (inp : Input) (s : HuntFS) :
    s.logBytes <+: (add_treasure ts hunt_id inp s).fs.logBytes := by
  have he := ensure_hunt_dir_extends_log hunt_id s
  unfold add_treasure
  generalize ensure_hunt_dir hunt_id s = r at he ⊢
  simp only
  split
  · exact he
  · split
    · exact he
    · rename_i s1 hs1
      have h1 : s1.logBytes = r.fs.logBytes := by
        unfold sys_open_creat at hs1
        split at hs1
        · cases hs1
          exact logBytes_put _ _ _ (by decide)
        · cases hs1
      have hw : ∀ data, (sys_write s1 .dat data).2.logBytes = r.fs.logBytes := by
        intro data
        rw [← h1]
        exact logBytes_put _ _ _ (by decide)
      split
      · rw [hw]; exact he
      · exact he.trans (by rw [← hw]; exact log_operation_extends_log _ _ _)

theorem list_treasures_extends_log (ts hunt_id : Bytes) (s : HuntFS) :
    s.logBytes <+: (list_treasures ts hunt_id s).fs.logBytes := by
  unfold list_treasures
  split
  · exact List.prefix_refl _
  · split
    · exact List.prefix_refl _
    · split
      · split <;> exact List.prefix_refl _
      · exact log_operation_extends_log _ _ _

theorem view_treasure_extends_log (ts hunt_id : Bytes) (id : Int) (s : HuntFS) :
    s.logBytes <+: (view_treasure ts hunt_id id s).fs.logBytes := by
  unfold view_treasure
  split
  · exact List.prefix_refl _
  · split
    · exact List.prefix_refl _
    · split
      · exact log_operation_extends_log _ _ _
      · exact List.prefix_refl _

theorem remove_treasure_extends_log (ts hunt_id : Bytes) (id : Int) (s : HuntFS) :
    s.logBytes <+: (remove_treasure ts hunt_id id s).fs.logBytes := by
  by_cases hn : s.node = .dir
  · cases hd : s.dat with
    | none => rw [remove_treasure_no_file ts hunt_id id s hn hd]
    | some b =>
      cases hany : (records b).any (fun r => decide (Treasure.id r = id)) with
      | false => rw [remove_treasure_not_found ts hunt_id id s b hn hd hany]; exact List.prefix_refl _
      | true =>
        rw [remove_treasure_found ts hunt_id id s b hn hd hany, logBytes_dir s hn]
        simp only [HuntFS.logBytes, HuntFS.file, hn, if_true, HuntFS.raw, Option.getD_some]
        exact List.prefix_append _ _
  · rw [remove_treasure_no_dir ts hunt_id id s hn]

theorem bigFile_length : bigFile.length = sizeofTreasure * 2147483647 :=
  List.length_replicate _ _

/-! ## C1: `get_next_id` -/

/-- C1, as stated, fails on a records file of `2 ^ 31 - 1` complete records:
the claim gives `2 ^ 31` for `get_next_id`, which no `int` holds; the
function returns `-2 ^ 31`. -/
theorem get_next_id_overflow :
    bigHunt.file .dat = some bigFile ∧ (records bigFile).length = 2147483647 ∧
      get_next_id bigHunt = -2147483648 := by
  have h336 : 0 < sizeofTreasure := by decide
  have hl : bigFile.length / sizeofTreasure = 2147483647 := by
    rw [bigFile_length, Nat.mul_div_cancel_left _ h336]
  refine ⟨rfl, ?_, ?_⟩
  · rw [records_length, hl]
  · rw [get_next_id_dir bigHunt bigFile rfl rfl, hl]
    unfold wrapInt
    norm_num

/-- C1 (amended): `get_next_id` returns 1 when the records file is absent
(or its directory is) or empty, and otherwise the number of complete records
of the file plus one, a truncated trailing record being ignored, as long as
that number plus one is at most `2 ^ 31 - 1`; and after `N` successful
`add_treasure` on a fresh hunt, with `N + 1 ≤ 2 ^ 31 - 1`, it returns
`N + 1`. -/
theorem get_next_id_counts :
    (∀ s : HuntFS, s.file .dat = none → get_next_id s = 1) ∧
    (∀ s : HuntFS, s.file .dat = some [] → get_next_id s = 1) ∧
    (∀ (s : HuntFS) (b : Bytes), s.file .dat = some b →
      b.length / sizeofTreasure + 1 < 2147483648 →
      (records b).length = b.length / sizeofTreasure ∧
        get_next_id s = ((b.length / sizeofTreasure : Nat) : Int) + 1) ∧
    (∀ (hunt_id : Bytes) (ops : List Op) (s0 s : HuntFS), hunt_exists s0 = false →
      (∀ op ∈ ops, op.isAdd = true) →
      run_ops hunt_id ops s0 = some s → ops.length + 1 < 2147483648 →
      get_next_id s = (ops.length : Int) + 1) := by
  have h336 : 0 < sizeofTreasure := by decide
  refine ⟨get_next_id_absent, ?_, ?_, ?_⟩
  · intro s h
    have : s.datBytes = [] := by simp only [HuntFS.datBytes, h, Option.getD_some]
    rw [get_next_id_datBytes, this, List.length_nil, Nat.zero_div]
    exact wrapInt_of_range 1 (by norm_num) (by norm_num)
  · intro s b h hb
    have : s.datBytes = b := by simp only [HuntFS.datBytes, h, Option.getD_some]
    refine ⟨records_length b, ?_⟩
    rw [get_next_id_datBytes, this]
    generalize b.length / sizeofTreasure = n at hb
    exact wrapInt_of_range _ (by omega) (by omega)
  · intro hunt_id ops s0 s h0 hadd hr hk
    obtain ⟨hl, -⟩ := run_adds_fresh hunt_id ops s0 s h0 hadd (by omega) hr
    rw [get_next_id_datBytes, hl, Nat.mul_div_cancel_left _ h336]
    exact wrapInt_of_range _ (by omega) (by omega)

set_option maxRecDepth 1000000 in
/-- C1 at concrete hunts: no records file, an empty one, a file of two records
and five more bytes, and the hunt after two `add_treasure`. -/
theorem get_next_id_counts_witness :
    get_next_id ⟨.dir, none, some [], none, false, none⟩ = 1 ∧
    get_next_id ⟨.dir, some [], some [], none, false, none⟩ = 1 ∧
    get_next_id ⟨.dir, some (hunt2.datBytes ++ [1, 2, 3, 4, 5]), none, none, false, none⟩ = 3 ∧
    get_next_id hunt2 = 3 :=
  ⟨get_next_id_counts.1 _ (by decide), get_next_id_counts.2.1 _ (by decide),
    (get_next_id_counts.2.2.1 ⟨.dir, some (hunt2.datBytes ++ [1, 2, 3, 4, 5]), none, none,
      false, none⟩ (hunt2.datBytes ++ [1, 2, 3, 4, 5]) (by decide) (by decide)).2.trans
      (by decide),
    get_next_id_counts.2.2.2 pirate [.add ts0 inpA, .add ts0 inpB] HuntFS.fresh hunt2
      (by decide) (by decide) (by decide) (by decide)⟩
/-! ## C2: `add_treasure` -/

/-- C3: in an existing hunt whose records file has a record with id `t`,
`remove_treasure` of `t` is successful; afterwards `view_treasure` of `t`
reports that the treasure is not found, and for every other id `u` of the file
`view_treasure` of `u` shows the record it showed before the removal. -/
theorem view_after_remove (ts ts2 hunt_id : Bytes) (t : Int) (s : HuntFS) (b : Bytes)
    (h : hunt_exists s = true) (hd : s.dat = some b) (hocc : t ∈ ids b) :
    (remove_treasure ts hunt_id t s).removed = true ∧
    (view_treasure ts2 hunt_id t (remove_treasure ts hunt_id t s).fs).out
      = [.notFound t hunt_id] ∧
    ∀ u : Int, u ≠ t → u ∈ ids b → ∃ r ∈ records b, Treasure.id r = u ∧
      (view_treasure ts2 hunt_id u s).out = [show_treasure r] ∧
      (view_treasure ts2 hunt_id u (remove_treasure ts hunt_id t s).fs).out
        = [show_treasure r] := by
  have hn := (hunt_exists_iff s).mp h
  have hrun := remove_treasure_found ts hunt_id t s b hn hd (any_of_mem_ids b t hocc)
  have hn2 : (remove_treasure ts hunt_id t s).fs.node = .dir := by rw [hrun]; exact hn
  have hd2 : (remove_treasure ts hunt_id t s).fs.dat
      = some ((records b).filter (fun r => !decide (Treasure.id r = t))).flatten := by
    rw [hrun]
  refine ⟨by rw [hrun]; rfl, ?_, ?_⟩
  · rw [view_treasure_not_found ts2 hunt_id t _ _ hn2 hd2]
    rw [records_kept, List.find?_eq_none]
    intro r hr
    have := (List.mem_filter.mp hr).2
    simpa using this
  · intro u hu hmem
    obtain ⟨r, hr, hid, hf⟩ := find?_of_mem_ids b u hmem
    refine ⟨r, hr, hid, ?_, ?_⟩
    · rw [view_treasure_found ts2 hunt_id u s b r hn hd hf]
    · rw [view_treasure_found ts2 hunt_id u _ _ r hn2 hd2]
      rw [records_kept, find?_filter_of_imp _ _ _ _, hf]
      intro a ha
      have ha2 : Treasure.id a = u := by simpa using ha
      simp only [ha2, hu, decide_False, Bool.not_false]

set_option maxRecDepth 1000000 in
/-- C3 at `hunt2`, whose records have ids 1 and 2, for `t = 1`. -/
theorem view_after_remove_witness :
    (remove_treasure ts0 pirate 1 hunt2).removed = true ∧
    (view_treasure ts0 pirate 1 (remove_treasure ts0 pirate 1 hunt2).fs).out
      = [.notFound 1 pirate] ∧
    ∀ u : Int, u ≠ 1 → u ∈ ids hunt2.datBytes → ∃ r ∈ records hunt2.datBytes,
      Treasure.id r = u ∧
      (view_treasure ts0 pirate u hunt2).out = [show_treasure r] ∧
      (view_treasure ts0 pirate u (remove_treasure ts0 pirate 1 hunt2).fs).out
        = [show_treasure r] :=
  view_after_remove ts0 ts0 pirate 1 hunt2 hunt2.datBytes (by decide) (by decide) (by decide)

/-! ## C4: what `remove_treasure` keeps -/

set_option maxRecDepth 1000000 in
/-- C4, as stated, fails on a records file where two records share the id:
`remove_treasure` drops both, where the claim keeps the second. -/
theorem remove_treasure_drops_twins :
    ids twins = [2, 2] ∧
    (remove_treasure ts0 pirate 2 ⟨.dir, some twins, none, none, false, none⟩).removed = true ∧
    records (remove_treasure ts0 pirate 2 ⟨.dir, some twins, none, none, false, none⟩).fs.datBytes
      = [] ∧
    ((records twins).eraseP (fun r => decide (Treasure.id r = 2))).length = 1 := by
  decide

/-- C4 (amended): in an existing hunt whose records file has a record with id
`t`, a successful `remove_treasure` of `t` replaces the file with its complete
records minus every record whose id is `t`, the others in their order, so that
the number of records goes down by the number of records with id `t`, which is
at least one. -/
theorem remove_treasure_keeps_others (ts hunt_id : Bytes) (t : Int) (s : HuntFS) (b : Bytes)
    (h : hunt_exists s = true) (hd : s.dat = some b) (hocc : t ∈ ids b) :
    (remove_treasure ts hunt_id t s).removed = true ∧
    (remove_treasure ts hunt_id t s).fs.file .dat
      = some ((records b).filter (fun r => !decide (Treasure.id r = t))).flatten ∧
    records (remove_treasure ts hunt_id t s).fs.datBytes
      = (records b).filter (fun r => !decide (Treasure.id r = t)) ∧
    (records (remove_treasure ts hunt_id t s).fs.datBytes).length
      + ((records b).filter (fun r => decide (Treasure.id r = t))).length
      = (records b).length ∧
    1 ≤ ((records b).filter (fun r => decide (Treasure.id r = t))).length := by
  have hn := (hunt_exists_iff s).mp h
  have hrun := remove_treasure_found ts hunt_id t s b hn hd (any_of_mem_ids b t hocc)
  have hfile : (remove_treasure ts hunt_id t s).fs.file .dat
      = some ((records b).filter (fun r => !decide (Treasure.id r = t))).flatten := by
    rw [hrun]
    simp only [HuntFS.file, hn, if_true, HuntFS.raw]
  have hrec : records (remove_treasure ts hunt_id t s).fs.datBytes
      = (records b).filter (fun r => !decide (Treasure.id r = t)) := by
    simp only [HuntFS.datBytes, hfile, Option.getD_some]
    exact records_kept b t
  refine ⟨by rw [hrun]; rfl, hfile, hrec, ?_, ?_⟩
  · rw [hrec]
    exact length_filter_not_add (fun r => decide (Treasure.id r = t)) (records b)
  · obtain ⟨r, hr, hid⟩ := (mem_ids_iff b t).mp hocc
    exact List.length_pos_of_mem (List.mem_filter.mpr ⟨hr, by simpa using hid⟩)

set_option maxRecDepth 1000000 in
/-- C4 (amended) at `hunt2`, removing id 1. -/
theorem remove_treasure_keeps_others_witness :
    (remove_treasure ts0 pirate 1 hunt2).removed = true ∧
    (remove_treasure ts0 pirate 1 hunt2).fs.file .dat
      = some ((records hunt2.datBytes).filter (fun r => !decide (Treasure.id r = 1))).flatten ∧
    records (remove_treasure ts0 pirate 1 hunt2).fs.datBytes
      = (records hunt2.datBytes).filter (fun r => !decide (Treasure.id r = 1)) ∧
    (records (remove_treasure ts0 pirate 1 hunt2).fs.datBytes).length
      + ((records hunt2.datBytes).filter (fun r => decide (Treasure.id r = 1))).length
      = (records hunt2.datBytes).length ∧
    1 ≤ ((records hunt2.datBytes).filter (fun r => decide (Treasure.id r = 1))).length :=
  remove_treasure_keeps_others ts0 pirate 1 hunt2 hunt2.datBytes (by decide) (by decide)
    (by decide)

/-! ## C5: `remove_treasure` of an id the file does not have -/

theorem run_ops_append (hunt_id : Bytes) : ∀ (ops1 ops2 : List Op) (s : HuntFS),
    run_ops hunt_id (ops1 ++ ops2) s = (run_ops hunt_id ops1 s).bind (run_ops hunt_id ops2) := by
  intro ops1
  induction ops1 with
  | nil => intro ops2 s; rfl
  | cons op ops1 ih =>
    intro ops2 s
    cases op with
    | add ts inp =>
      simp only [List.cons_append, run_ops]
      split
      · exact ih _ _
      · rfl
    | remove ts id =>
      simp only [List.cons_append, run_ops]
      split
      · exact ih _ _
      · rfl

theorem remove_treasure_removed (ts hunt_id : Bytes) (t : Int) (s : HuntFS)
    (h : (remove_treasure ts hunt_id t s).removed = true) :
    s.node = .dir ∧ ∃ b, s.dat = some b ∧ t ∈ ids b := by
  by_cases hn : s.node = .dir
  · cases hd : s.dat with
    | none =>
      rw [remove_treasure_no_file ts hunt_id t s hn hd] at h
      cases h
    | some b =>
      refine ⟨hn, b, rfl, ?_⟩
      by_contra hno
      rw [remove_treasure_not_found ts hunt_id t s b hn hd (any_of_not_mem_ids b t hno)] at h
      cases h
  · rw [remove_treasure_no_dir ts hunt_id t s hn] at h
    cases h

theorem run_removes_nodup (hunt_id : Bytes) : ∀ (ops : List Op) (s s' : HuntFS),
    (∀ op ∈ ops, op.isRemove = true) → run_ops hunt_id ops s = some s' →
    (ids s.datBytes).Nodup → (ids s'.datBytes).Nodup := by
  intro ops
  induction ops with
  | nil =>
    intro s s' _ hr hnd
    simp only [run_ops, Option.some.injEq] at hr
    subst hr
    exact hnd
  | cons op ops ih =>
    intro s s' hrem hr hnd
    cases op with
    | add ts inp =>
      have := hrem _ (List.mem_cons_self _ _)
      cases this
    | remove ts t =>
      simp only [run_ops] at hr
      split at hr
      · rename_i hok
        obtain ⟨hn, b, hd, hocc⟩ := remove_treasure_removed ts hunt_id t s hok
        refine ih _ s' (fun op hop => hrem op (List.mem_cons_of_mem _ hop)) hr ?_
        rw [remove_treasure_found ts hunt_id t s b hn hd (any_of_mem_ids b t hocc)]
        have hdb : s.datBytes = b := by rw [datBytes_dir s hn, hd]; rfl
        rw [hdb] at hnd
        have hnew : HuntFS.datBytes { s with
            dat := some ((records b).filter (fun r => !decide (Treasure.id r = t))).flatten,
            temp := none,
            log := some (s.log.getD [] ++ log_entry ts
              (snprintf 256 (str "Removed treasure " ++ fmtInt t))) }
            = ((records b).filter (fun r => !decide (Treasure.id r = t))).flatten := by
          simp only [HuntFS.datBytes, HuntFS.file, hn, if_true, HuntFS.raw, Option.getD_some]
        simp only [hnew]
        unfold ids at hnd ⊢
        rw [records_kept]
        exact hnd.sublist ((List.filter_sublist _).map _)
      · cases hr

set_option maxRecDepth 1000000 in
/-- C6, as stated, fails: two adds, the removal of id 1 and a third add, each
successful, leave a hunt whose two records both have id 2. -/
theorem ids_repeat_after_remove :
    run_ops pirate [.add ts0 inpA, .add ts0 inpB, .remove ts0 1, .add ts0 inpB] HuntFS.fresh
      = some hunt4 ∧
    ids hunt4.datBytes = [2, 2] ∧ ¬ (ids hunt4.datBytes).Nodup := by
  decide

/-- C6 (amended): in every state of a hunt reached from a fresh hunt by
successful `add_treasure` operations, at most `2 ^ 31 - 1` of them, followed
by successful `remove_treasure` operations (no add after a removal), no two
records of the file have the same id. -/
theorem ids_unique_adds_then_removes (hunt_id : Bytes) (adds removes : List Op)
    (s0 s : HuntFS) (h0 : hunt_exists s0 = false)
    (hadd : ∀ op ∈ adds, op.isAdd = true) (hrem : ∀ op ∈ removes, op.isRemove = true)
    (hN : adds.length < 2147483648)
    (hr : run_ops hunt_id (adds ++ removes) s0 = some s) :
    (ids s.datBytes).Nodup := by
  rw [run_ops_append] at hr
  cases hmid : run_ops hunt_id adds s0 with
  | none => rw [hmid] at hr; cases hr
  | some mid =>
    rw [hmid] at hr
    obtain ⟨-, hids⟩ := run_adds_fresh hunt_id adds s0 mid h0 hadd hN hmid
    refine run_removes_nodup hunt_id removes mid s hrem hr ?_
    rw [hids]
    exact idsUpTo_nodup _

set_option maxRecDepth 1000000 in
/-- C6 (amended) at the hunt after two adds and the removal of id 1. -/
theorem ids_unique_adds_then_removes_witness : (ids hunt3.datBytes).Nodup :=
  ids_unique_adds_then_removes pirate [.add ts0 inpA, .add ts0 inpB] [.remove ts0 1]
    HuntFS.fresh hunt3 (by decide) (by decide) (by decide) (by decide) (by decide)
/-! ## C7: `list_treasures` without a records file -/

/-- C7, as stated, fails: in the hunt `ensure_hunt_dir` has just created, which
has no records file, `list_treasures` stops at the failure of `stat`; it
prints that diagnostic, not that no treasure is found, and appends nothing to
the audit log. -/
theorem list_treasures_stat_fails :
    hunt_exists emptyHunt = true ∧ emptyHunt.file .dat = none ∧ emptyHunt.file .log = some [] ∧
    (list_treasures ts0 pirate emptyHunt).out = [.statFailed .ENOENT] ∧
    (list_treasures ts0 pirate emptyHunt).fs.file .log = some [] := by
  decide

/-- C7 (amended): in an existing hunt directory whose records file is absent,
`list_treasures` appends no entry to the audit log (it changes nothing in the
file system); and for a hunt that does not exist, `list_treasures` appends no
entry either and reports that the hunt does not exist. -/
theorem list_treasures_no_file (ts hunt_id : Bytes) (s : HuntFS) :
    (hunt_exists s = true → s.dat = none → (list_treasures ts hunt_id s).fs = s) ∧
    (hunt_exists s = false → (list_treasures ts hunt_id s).fs = s ∧
      (list_treasures ts hunt_id s).out = [.huntMissing hunt_id]) := by
  constructor
  · intro h hd
    have hn := (hunt_exists_iff s).mp h
    simp only [list_treasures, h, Bool.not_true, Bool.false_eq_true, if_false, sys_stat, hn,
      if_true, HuntFS.raw, hd]
  · intro h
    simp only [list_treasures, h, Bool.not_false, if_true, and_self]

/-- C7 (amended) at the hunt `ensure_hunt_dir` has just created and at a
fresh hunt. -/
theorem list_treasures_no_file_witness :
    (list_treasures ts0 pirate emptyHunt).fs = emptyHunt ∧
    ((list_treasures ts0 pirate HuntFS.fresh).fs = HuntFS.fresh ∧
      (list_treasures ts0 pirate HuntFS.fresh).out = [.huntMissing pirate]) :=
  ⟨(list_treasures_no_file ts0 pirate emptyHunt).1 (by decide) (by decide),
    (list_treasures_no_file ts0 pirate HuntFS.fresh).2 (by decide)⟩

/-! ## C8: `remove_hunt` -/

theorem returns_list (ts hunt_id : Bytes) (s : HuntFS) :
    (list_treasures ts hunt_id s).exit = none := by
  unfold list_treasures
  split
  · rfl
  · split
    · rfl
    · split
      · split <;> rfl
      · rfl

theorem returns_view (ts hunt_id : Bytes) (id : Int) (s : HuntFS) :
    (view_treasure ts hunt_id id s).exit = none := by
  unfold view_treasure
  split
  · rfl
  · split
    · rfl
    · split <;> rfl

theorem returns_remove_treasure (ts hunt_id : Bytes) (id : Int) (s : HuntFS) :
    (remove_treasure ts hunt_id id s).exit = none := by
  unfold remove_treasure
  split
  · rfl
  · split
    · rfl
    · split
      · rfl
      · split
        · rfl
        · split
          · rfl
          · split <;> rfl

theorem returns_remove_hunt (hunt_id : Bytes) (s : HuntFS) :
    (remove_hunt hunt_id s).exit = none := by
  unfold remove_hunt
  split
  · rfl
  · simp only
    split <;> rfl

theorem not_prefix_dashes (operation : Bytes) (h : ¬ str "--" <+: operation) :
    operation.getD 0 0 ≠ 45 ∨ operation.getD 1 0 ≠ 45 := by
  by_contra hc
  rw [not_or, not_not, not_not] at hc
  apply h
  match operation, hc with
  | [], hc => exact absurd hc.1 (by decide)
  | [a], hc =>
    have h2 : ([a] : Bytes).getD 1 0 = 0 := rfl
    rw [h2] at hc
    exact absurd hc.2 (by decide)
  | a :: b :: rest, hc =>
    simp only [List.getD_cons_zero, List.getD_cons_succ] at hc
    rw [hc.1, hc.2]
    exact List.prefix_append [45, 45] rest

/-- C9: `main` returns exit status 1 and calls no operation (it leaves the
file system as it is and prints only its diagnostic) when there are fewer
than 3 arguments, when the operation does not start with `--`, when the name
after `--` is none of the five, and when `view` or `remove_treasure` has no
treasure id; in every other case its run is that of the operation named,
with exit status 0 when the operation returns, which `list_treasures`,
`view_treasure`, `remove_treasure` and `remove_hunt` always do. -/
theorem main_dispatch (ts : Bytes) (inp : Input) (s : HuntFS) :
    (∀ argv : List Bytes, argv.length < 3 →
      main ts inp argv s = ⟨s, [.usage (argv.headD []), .operations], some 1⟩) ∧
    (∀ (prog operation hunt_id : Bytes) (more : List Bytes),
      (¬ str "--" <+: operation →
        main ts inp (prog :: operation :: hunt_id :: more) s = ⟨s, [.badFlag], some 1⟩) ∧
      (∀ name : Bytes, operation = str "--" ++ name →
        (name = str "add" → main ts inp (prog :: operation :: hunt_id :: more) s
          = finish (add_treasure ts hunt_id inp s)) ∧
        (name = str "list" → main ts inp (prog :: operation :: hunt_id :: more) s
          = finish (list_treasures ts hunt_id s)) ∧
        (name = str "view" →
          (more = [] → main ts inp (prog :: operation :: hunt_id :: more) s
            = ⟨s, [.missingIdView], some 1⟩) ∧
          (∀ (id : Bytes) (rest : List Bytes), more = id :: rest →
            main ts inp (prog :: operation :: hunt_id :: more) s
              = finish (view_treasure ts hunt_id (atoi id) s))) ∧
        (name = str "remove_treasure" →
          (more = [] → main ts inp (prog :: operation :: hunt_id :: more) s
            = ⟨s, [.missingIdRemove], some 1⟩) ∧
          (∀ (id : Bytes) (rest : List Bytes), more = id :: rest →
            main ts inp (prog :: operation :: hunt_id :: more) s
              = finish (remove_treasure ts hunt_id (atoi id) s))) ∧
        (name = str "remove_hunt" → main ts inp (prog :: operation :: hunt_id :: more) s
          = finish (remove_hunt hunt_id s)) ∧
        (name ∉ [str "add", str "list", str "view", str "remove_treasure", str "remove_hunt"] →
          main ts inp (prog :: operation :: hunt_id :: more) s
            = ⟨s, [.unknownOperation name], some 1⟩))) ∧
    (∀ r : Run, (finish r).fs = r.fs ∧ (finish r).out = r.out ∧
      (r.exit = none → (finish r).exit = some 0) ∧
      (∀ code, r.exit = some code → (finish r).exit = some code)) ∧
    (∀ (hunt_id : Bytes) (id : Int), (list_treasures ts hunt_id s).exit = none ∧
      (view_treasure ts hunt_id id s).exit = none ∧
      (remove_treasure ts hunt_id id s).exit = none ∧ (remove_hunt hunt_id s).exit = none) ∧
    (∀ hunt_id : Bytes, (add_treasure ts hunt_id inp s).exit = none ∨
      (add_treasure ts hunt_id inp s).exit = some 1) := by
  refine ⟨?_, ?_, ?_, ?_, ?_⟩
  · intro argv h
    match argv, h with
    | [], _ => rfl
    | [_], _ => rfl
    | [_, _], _ => rfl
    | _ :: _ :: _ :: _, h => simp only [List.length_cons] at h; omega
  · intro prog operation hunt_id more
    constructor
    · intro h
      simp only [main, not_prefix_dashes operation h, if_true]
    · intro name hop
      subst hop
      have hd : ¬ ((str "--" ++ name).getD 0 0 ≠ 45 ∨ (str "--" ++ name).getD 1 0 ≠ 45) := by
        rw [not_or, not_not, not_not]; exact ⟨rfl, rfl⟩
      have hdrop : (str "--" ++ name).drop 2 = name := rfl
      have e1 : str "list" ≠ str "add" := by decide
      have e2 : str "view" ≠ str "add" := by decide
      have e3 : str "view" ≠ str "list" := by decide
      have e4 : str "remove_treasure" ≠ str "add" := by decide
      have e5 : str "remove_treasure" ≠ str "list" := by decide
      have e6 : str "remove_treasure" ≠ str "view" := by decide
      have e7 : str "remove_hunt" ≠ str "add" := by decide
      have e8 : str "remove_hunt" ≠ str "list" := by decide
      have e9 : str "remove_hunt" ≠ str "view" := by decide
      have e10 : str "remove_hunt" ≠ str "remove_treasure" := by decide
      refine ⟨?_, ?_, ?_, ?_, ?_, ?_⟩
      · intro hn
        subst hn
        simp only [main, hd, if_false, hdrop, if_true]
      · intro hn
        subst hn
        simp only [main, hd, if_false, hdrop, if_true, e1]
      · intro hn
        subst hn
        constructor
        · intro hm
          subst hm
          simp only [main, hd, if_false, hdrop, if_true, e2, e3]
        · intro id rest hm
          subst hm
          simp only [main, hd, if_false, hdrop, if_true, e2, e3]
      · intro hn
        subst hn
        constructor
        · intro hm
          subst hm
          simp only [main, hd, if_false, hdrop, if_true, e4, e5, e6]
        · intro id rest hm
          subst hm
          simp only [main, hd, if_false, hdrop, if_true, e4, e5, e6]
      · intro hn
        subst hn
        simp only [main, hd, if_false, hdrop, if_true, e7, e8, e9, e10]
      · intro hn
        simp only [List.mem_cons, List.mem_singleton, List.not_mem_nil, or_false, not_or] at hn
        simp only [main, hd, if_false, hdrop, hn.1, hn.2.1, hn.2.2.1, hn.2.2.2.1, hn.2.2.2.2]
  · intro r
    obtain ⟨fs, out, exit⟩ := r
    cases exit with
    | none =>
      refine ⟨rfl, rfl, fun _ => rfl, ?_⟩
      intro code h
      cases h
    | some c =>
      refine ⟨rfl, rfl, ?_, ?_⟩
      · intro h
        cases h
      · intro code h
        cases h
        rfl
  · intro hunt_id id
    exact ⟨returns_list _ _ _, returns_view _ _ _ _, returns_remove_treasure _ _ _ _,
      returns_remove_hunt _ _⟩
  · intro hunt_id
    unfold add_treasure
    cases hn : s.node with
    | other => right; rw [ensure_hunt_dir_other _ _ hn]
    | dir =>
      left; rw [ensure_hunt_dir_dir _ _ hn]
      simp only
      split
      · rfl
      · split <;> rfl
    | absent =>
      left; rw [ensure_hunt_dir_absent _ _ hn]
      simp only
      split
      · rfl
      · split <;> rfl

set_option maxRecDepth 1000000 in
/-- C9 at argument vectors for the hunt `hunt2`: one of each kind of usage
error, one for each operation, and a `view` of an id the hunt does not have,
which exits with status 0. -/
theorem main_dispatch_witness :
    main ts0 inpB [str "prog", str "--list"] hunt2
      = ⟨hunt2, [.usage (str "prog"), .operations], some 1⟩ ∧
    main ts0 inpB [str "prog", str "list", pirate] hunt2 = ⟨hunt2, [.badFlag], some 1⟩ ∧
    main ts0 inpB [str "prog", str "--add", pirate] hunt2
      = finish (add_treasure ts0 pirate inpB hunt2) ∧
    main ts0 inpB [str "prog", str "--list", pirate] hunt2
      = finish (list_treasures ts0 pirate hunt2) ∧
    main ts0 inpB [str "prog", str "--view", pirate] hunt2
      = ⟨hunt2, [.missingIdView], some 1⟩ ∧
    main ts0 inpB [str "prog", str "--view", pirate, str "7"] hunt2
      = finish (view_treasure ts0 pirate (atoi (str "7")) hunt2) ∧
    main ts0 inpB [str "prog", str "--remove_treasure", pirate] hunt2
      = ⟨hunt2, [.missingIdRemove], some 1⟩ ∧
    main ts0 inpB [str "prog", str "--remove_treasure", pirate, str "1"] hunt2
      = finish (remove_treasure ts0 pirate (atoi (str "1")) hunt2) ∧
    main ts0 inpB [str "prog", str "--remove_hunt", pirate] hunt2
      = finish (remove_hunt pirate hunt2) ∧
    main ts0 inpB [str "prog", str "--delete", pirate] hunt2
      = ⟨hunt2, [.unknownOperation (str "delete")], some 1⟩ ∧
    (finish (view_treasure ts0 pirate (atoi (str "7")) hunt2)).exit = some 0 ∧
    (view_treasure ts0 pirate (atoi (str "7")) hunt2).out = [.notFound 7 pirate] :=
  have D := main_dispatch ts0 inpB hunt2
  ⟨D.1 _ (by decide),
    (D.2.1 (str "prog") (str "list") pirate []).1 (by decide),
    ((D.2.1 (str "prog") (str "--add") pirate []).2 (str "add") (by decide)).1 rfl,
    ((D.2.1 (str "prog") (str "--list") pirate []).2 (str "list") (by decide)).2.1 rfl,
    (((D.2.1 (str "prog") (str "--view") pirate []).2 (str "view") (by decide)).2.2.1 rfl).1 rfl,
    (((D.2.1 (str "prog") (str "--view") pirate [str "7"]).2 (str "view")
      (by decide)).2.2.1 rfl).2 _ _ rfl,
    (((D.2.1 (str "prog") (str "--remove_treasure") pirate []).2 (str "remove_treasure")
      (by decide)).2.2.2.1 rfl).1 rfl,
    (((D.2.1 (str "prog") (str "--remove_treasure") pirate [str "1"]).2 (str "remove_treasure")
      (by decide)).2.2.2.1 rfl).2 _ _ rfl,
    ((D.2.1 (str "prog") (str "--remove_hunt") pirate []).2 (str "remove_hunt")
      (by decide)).2.2.2.2.1 rfl,
    ((D.2.1 (str "prog") (str "--delete") pirate []).2 (str "delete")
      (by decide)).2.2.2.2.2 (by decide),
    (D.2.2.1 _).2.2.1 ((D.2.2.2.1 pirate (atoi (str "7"))).2.1),
    by decide⟩
/-! ## C10: the audit log -/

set_option maxRecDepth 1000000 in
/-- C10, as stated, fails for an operation text of 489 bytes: the call is
successful, and the line it appends is the text cut to the 511 bytes the
buffer `log_entry` holds, without the newline. -/
theorem log_operation_cuts_long_text :
    TimestampShape ts0 ∧ longOperation.length = 489 ∧
    (log_operation ts0 longOperation emptyHunt).2 = [] ∧
    (log_operation ts0 longOperation emptyHunt).1.logBytes
      = emptyHunt.logBytes ++ (str "[" ++ ts0 ++ str "] " ++ longOperation) ∧
    (log_operation ts0 longOperation emptyHunt).1.logBytes
      ≠ emptyHunt.logBytes ++ (str "[" ++ ts0 ++ str "] " ++ longOperation ++ str "\n") := by
  decide

/-- C10 (amended): a successful `log_operation` leaves the log equal to what
it was, followed by the one line `[YYYY-MM-DD HH:MM:SS] <operation_text>\n`,
for every operation text of at most 488 bytes; for any text, what it appends
is the first 511 bytes of that line, which is what the buffer `log_entry`
holds; and `add_treasure`, `list_treasures`, `view_treasure`,
`remove_treasure`, `ensure_hunt_dir` and `log_operation` itself, for every
text, leave the log of before as a prefix of the log of after. -/
theorem log_append_only :
    (∀ (ts operation : Bytes) (s : HuntFS), (log_operation ts operation s).2 = [] →
      TimestampShape ts → operation.length ≤ 488 →
      (log_operation ts operation s).1.logBytes
        = s.logBytes ++ (str "[" ++ ts ++ str "] " ++ operation ++ str "\n")) ∧
    (∀ (ts operation : Bytes) (s : HuntFS), (log_operation ts operation s).2 = [] →
      (log_operation ts operation s).1.logBytes
        = s.logBytes ++ (str "[" ++ ts ++ str "] " ++ operation ++ str "\n").take 511) ∧
    (∀ (ts hunt_id operation : Bytes) (inp : Input) (id : Int) (s : HuntFS),
      s.logBytes <+: (add_treasure ts hunt_id inp s).fs.logBytes ∧
      s.logBytes <+: (list_treasures ts hunt_id s).fs.logBytes ∧
      s.logBytes <+: (view_treasure ts hunt_id id s).fs.logBytes ∧
      s.logBytes <+: (remove_treasure ts hunt_id id s).fs.logBytes ∧
      s.logBytes <+: (ensure_hunt_dir hunt_id s).fs.logBytes ∧
      s.logBytes <+: (log_operation ts operation s).1.logBytes) := by
  have hcut : ∀ (ts operation : Bytes) (s : HuntFS), (log_operation ts operation s).2 = [] →
      (log_operation ts operation s).1.logBytes
        = s.logBytes ++ (str "[" ++ ts ++ str "] " ++ operation ++ str "\n").take 511 := by
    intro ts operation s hok
    have hn : s.node = .dir := by
      by_contra hn
      rw [log_operation_not_dir _ _ _ hn] at hok
      cases hok
    rw [log_operation_dir _ _ _ hn, logBytes_dir s hn]
    simp only [HuntFS.logBytes, HuntFS.file, hn, if_true, HuntFS.raw, Option.getD_some]
    rfl
  refine ⟨?_, hcut, ?_⟩
  · intro ts operation s hok hts hlen
    rw [hcut ts operation s hok]
    congr 1
    apply List.take_of_length_le
    have h1 : (str "[").length = 1 := rfl
    have h2 : (str "] ").length = 2 := rfl
    have h3 : (str "\n").length = 1 := rfl
    simp only [List.length_append, h1, h2, h3, hts.1]
    omega
  · intro ts hunt_id operation inp id s
    exact ⟨add_treasure_extends_log _ _ _ _, list_treasures_extends_log _ _ _, view_treasure_extends_log _ _ _ _,
      remove_treasure_extends_log _ _ _ _, ensure_hunt_dir_extends_log _ _, log_operation_extends_log _ _ _⟩

set_option maxRecDepth 1000000 in
/-- C10 (amended) at the log of `hunt2`, for the text `Listed all treasures`
and for the text of 489 bytes. -/
theorem log_append_only_witness :
    (log_operation ts0 (str "Listed all treasures") hunt2).1.logBytes
      = hunt2.logBytes ++ (str "[" ++ ts0 ++ str "] " ++ str "Listed all treasures" ++ str "\n") ∧
    (log_operation ts0 longOperation hunt2).1.logBytes
      = hunt2.logBytes ++ (str "[" ++ ts0 ++ str "] " ++ longOperation ++ str "\n").take 511 :=
  ⟨log_append_only.1 ts0 (str "Listed all treasures") hunt2 (by decide) (by decide) (by decide),
    log_append_only.2.1 ts0 longOperation hunt2 (by decide)⟩

end ProiectSO
